import Mathlib

/-
  Verification development for the AnaDec interest-rate core.

  Shallow embedding of src/financeCore:
    tasa_interes.py   (TasaInteres: construction, parsing, formatting)
    convertidor.py    (Convertidor: periodicity / nominal-effective conversions)
    calculador.py     (Calculador: periodic rate, installments, PV/FV, simple interest)
    estandarizador.py (Estandarizador: periodic rate, series generators)

  Python strings are modelled as List Char, Python floats as exact rationals
  (reals where the code takes fractional powers), Python round() as
  round-half-to-even on the decimal grid, and raised exceptions as the
  error case of Except.
-/

namespace AnaDec

attribute [local semireducible] Rat.ofScientific Rat.mul Rat.inv Rat.add Rat.sub

/-- Kinds of Python exceptions raised by the modelled code. -/
inductive PyError where
  | typeErr
  | valueErr
  | zeroDivErr
  | keyErr
deriving DecidableEq

instance {ε α : Type} [DecidableEq ε] [DecidableEq α] : DecidableEq (Except ε α) := fun x y =>
  match x, y with
  | .error a, .error b =>
      if h : a = b then .isTrue (by rw [h]) else .isFalse (by intro hc; cases hc; exact h rfl)
  | .error _, .ok _ => .isFalse (by intro hc; cases hc)
  | .ok _, .error _ => .isFalse (by intro hc; cases hc)
  | .ok a, .ok b =>
      if h : a = b then .isTrue (by rw [h]) else .isFalse (by intro hc; cases hc; exact h rfl)

/-- Python round() to an integer: round half to even. -/
def bankers {α : Type} [LinearOrderedField α] [FloorRing α] (x : α) : ℤ :=
  if x - ⌊x⌋ < 1 / 2 then ⌊x⌋
  else if 1 / 2 < x - ⌊x⌋ then ⌊x⌋ + 1
  else if ⌊x⌋ % 2 = 0 then ⌊x⌋ else ⌊x⌋ + 1

/-- Python round(x, p) on rationals. -/
def qRound (p : ℕ) (x : ℚ) : ℚ := (bankers (x * 10 ^ p) : ℚ) / 10 ^ p

/-- Python round(x, p) applied to a real intermediate; the result is a decimal rational. -/
noncomputable def rRound (p : ℕ) (x : ℝ) : ℚ := (bankers (x * 10 ^ p) : ℚ) / 10 ^ p

theorem bankers_intCast {α : Type} [LinearOrderedField α] [FloorRing α] (n : ℤ) :
    bankers (n : α) = n := by
  simp [bankers]

theorem abs_bankers_sub {α : Type} [LinearOrderedField α] [FloorRing α] (x : α) :
    |(bankers x : α) - x| ≤ 1 / 2 := by
  have h0 : (⌊x⌋ : α) ≤ x := Int.floor_le x
  have h1 : x < ⌊x⌋ + 1 := Int.lt_floor_add_one x
  unfold bankers
  split_ifs with hlt hgt heven
  · rw [abs_sub_comm, abs_of_nonneg (by linarith)]; linarith
  · push_cast
    rw [abs_of_nonneg (by linarith)]; linarith
  · rw [abs_sub_comm, abs_of_nonneg (by linarith)]; linarith
  · push_cast
    rw [abs_of_nonneg (by linarith)]; linarith

theorem bankers_nonneg {α : Type} [LinearOrderedField α] [FloorRing α] {x : α} (hx : 0 ≤ x) :
    0 ≤ bankers x := by
  have h0 : (0 : ℤ) ≤ ⌊x⌋ := Int.floor_nonneg.mpr hx
  unfold bankers
  split_ifs <;> omega

theorem abs_qRound_sub (p : ℕ) (x : ℚ) : |qRound p x - x| ≤ 1 / (2 * 10 ^ p) := by
  have hb := abs_bankers_sub (α := ℚ) (x * 10 ^ p)
  have hp : (0 : ℚ) < 10 ^ p := by positivity
  have : |qRound p x - x| = |(bankers (x * 10 ^ p) : ℚ) - x * 10 ^ p| / 10 ^ p := by
    rw [qRound, ← abs_of_pos hp, ← abs_div]
    congr 1
    field_simp
    ring
  rw [this]
  rw [div_le_div_iff hp (by positivity)]
  calc |(bankers (x * 10 ^ p) : ℚ) - x * 10 ^ p| * (2 * 10 ^ p)
      ≤ (1 / 2) * (2 * 10 ^ p) := by
        apply mul_le_mul_of_nonneg_right hb (by positivity)
    _ = 1 * 10 ^ p := by ring

theorem qRound_nonneg {p : ℕ} {x : ℚ} (hx : 0 ≤ x) : 0 ≤ qRound p x := by
  have : (0 : ℤ) ≤ bankers (x * 10 ^ p) := bankers_nonneg (by positivity)
  unfold qRound
  positivity

theorem qRound_zero (p : ℕ) : qRound p 0 = 0 := by
  simp [qRound, bankers]

/-- A decimal value already on the grid is rounded to itself. -/
theorem qRound_intCast_div (p : ℕ) (n : ℤ) : qRound p ((n : ℚ) / 10 ^ p) = (n : ℚ) / 10 ^ p := by
  have hp : (10 : ℚ) ^ p ≠ 0 := by positivity
  unfold qRound
  rw [div_mul_cancel₀ _ hp, bankers_intCast]

theorem qRound_idem (p : ℕ) (x : ℚ) : qRound p (qRound p x) = qRound p x := by
  rw [show qRound p x = ((bankers (x * 10 ^ p) : ℚ) / 10 ^ p) from rfl, qRound_intCast_div]

theorem bankers_ratCast (q : ℚ) : bankers ((q : ℝ)) = bankers q := by
  have hfloor : ⌊(q : ℝ)⌋ = ⌊q⌋ := Rat.floor_cast q
  unfold bankers
  rw [hfloor]
  have e : (q : ℝ) - ((⌊q⌋ : ℤ) : ℝ) = ((q - (⌊q⌋ : ℤ) : ℚ) : ℝ) := by push_cast; ring
  have half : (1 / 2 : ℝ) = (((1 / 2 : ℚ)) : ℝ) := by norm_num
  have r1 : ((q : ℝ) - ((⌊q⌋ : ℤ) : ℝ) < 1 / 2) ↔ (q - (⌊q⌋ : ℤ) < 1 / 2) := by
    rw [e, half, Rat.cast_lt]
  have r2 : ((1 : ℝ) / 2 < (q : ℝ) - ((⌊q⌋ : ℤ) : ℝ)) ↔ ((1 : ℚ) / 2 < q - (⌊q⌋ : ℤ)) := by
    rw [e, half, Rat.cast_lt]
  by_cases c1 : q - (⌊q⌋ : ℤ) < 1 / 2
  · rw [if_pos (r1.mpr c1), if_pos c1]
  · rw [if_neg (fun h => c1 (r1.mp h)), if_neg c1]
    by_cases c2 : (1 : ℚ) / 2 < q - (⌊q⌋ : ℤ)
    · rw [if_pos (r2.mpr c2), if_pos c2]
    · rw [if_neg (fun h => c2 (r2.mp h)), if_neg c2]

theorem rRound_ratCast (p : ℕ) (q : ℚ) : rRound p ((q : ℚ) : ℝ) = qRound p q := by
  unfold rRound qRound
  congr 1
  have : ((q : ℝ) * 10 ^ p) = (((q * 10 ^ p : ℚ) : ℝ)) := by push_cast; ring
  rw [this, bankers_ratCast]

theorem abs_rRound_sub (p : ℕ) (x : ℝ) : |(rRound p x : ℝ) - x| ≤ 1 / (2 * 10 ^ p) := by
  have hb := abs_bankers_sub (α := ℝ) (x * 10 ^ p)
  have hp : (0 : ℝ) < 10 ^ p := by positivity
  have hcast : ((rRound p x : ℚ) : ℝ) = (bankers (x * 10 ^ p) : ℝ) / 10 ^ p := by
    unfold rRound
    push_cast
    rfl
  have : |(rRound p x : ℝ) - x| = |(bankers (x * 10 ^ p) : ℝ) - x * 10 ^ p| / 10 ^ p := by
    rw [hcast, ← abs_of_pos hp, ← abs_div]
    congr 1
    field_simp
    ring
  rw [this, div_le_div_iff hp (by positivity)]
  calc |(bankers (x * 10 ^ p) : ℝ) - x * 10 ^ p| * (2 * 10 ^ p)
      ≤ (1 / 2) * (2 * 10 ^ p) := by
        apply mul_le_mul_of_nonneg_right hb (by positivity)
    _ = 1 * 10 ^ p := by ring

theorem rRound_nonneg {p : ℕ} {x : ℝ} (hx : 0 ≤ x) : 0 ≤ rRound p x := by
  have : (0 : ℤ) ≤ bankers (x * 10 ^ p) := bankers_nonneg (by positivity)
  unfold rRound
  positivity

/- Python string helpers over List Char. -/

/-- Python str.strip() whitespace set (the ASCII part used by the grammar). -/
def isPySpace (c : Char) : Bool := c = ' ' ∨ c = '\t' ∨ c = '\n' ∨ c = '\r' ∨ c = '\x0b' ∨ c = '\x0c'

/-- Python str.strip(): drop leading and trailing whitespace. -/
def pyStrip (s : List Char) : List Char :=
  ((s.dropWhile isPySpace).reverse.dropWhile isPySpace).reverse

/-- ASCII uppercase of one char (the inputs the grammar accepts are ASCII). -/
def upperChar (c : Char) : Char :=
  if 97 ≤ c.toNat ∧ c.toNat ≤ 122 then Char.ofNat (c.toNat - 32) else c

/-- ASCII lowercase of one char. -/
def lowerChar (c : Char) : Char :=
  if 65 ≤ c.toNat ∧ c.toNat ≤ 90 then Char.ofNat (c.toNat + 32) else c

/-- Python str.upper(). -/
def pyUpper (s : List Char) : List Char := s.map upperChar

/-- Python str.lower(). -/
def pyLower (s : List Char) : List Char := s.map lowerChar

/-- Python str.replace(" ", ""). -/
def pyRemoveSpaces (s : List Char) : List Char := s.filter (fun c => c ≠ ' ')

/-- The canonical tipo string "efectiva". -/
def strEfectiva : List Char := ['e', 'f', 'e', 'c', 't', 'i', 'v', 'a']

/-- The canonical tipo string "nominal". -/
def strNominal : List Char := ['n', 'o', 'm', 'i', 'n', 'a', 'l']

/- Data model: tasa_interes.py, dataclass TasaInteres. -/

/-- The TasaInteres dataclass: valor (decimal fraction), periodo (months per period),
tipo ("efectiva" or "nominal"), es_anticipada, periodo_nominal (nominal rates only). -/
structure TasaInteres where
  valor : ℚ
  periodo : ℤ
  tipo : List Char
  es_anticipada : Bool
  periodo_nominal : Option ℤ
deriving DecidableEq

/-- Construction of a TasaInteres: the dataclass constructor followed by the
post-init validation of tasa_interes.py (normalise tipo, check valor > -1,
periodo > 0, tipo membership, and the periodo_nominal conditions for nominal). -/
def mkTasaInteres (valor : ℚ) (periodo : ℤ) (tipo : List Char) (es_anticipada : Bool)
    (periodo_nominal : Option ℤ) : Except PyError TasaInteres :=
  let tipoN := pyLower (pyStrip tipo)
  if valor ≤ -1 then .error .valueErr
  else if periodo ≤ 0 then .error .valueErr
  else if tipoN ≠ strEfectiva ∧ tipoN ≠ strNominal then .error .valueErr
  else if tipoN = strNominal then
    match periodo_nominal with
    | none => .error .valueErr
    | some pn =>
      if pn ≤ 0 then .error .valueErr
      else if pn < periodo then .error .valueErr
      else .ok ⟨valor, periodo, tipoN, es_anticipada, some pn⟩
  else .ok ⟨valor, periodo, tipoN, es_anticipada, periodo_nominal⟩

/-- The periodo_nominal requirements of the post-init validation for nominal rates. -/
def pnOk (periodo : ℤ) : Option ℤ → Prop
  | none => False
  | some n => 0 < n ∧ periodo ≤ n

instance (periodo : ℤ) (o : Option ℤ) : Decidable (pnOk periodo o) :=
  match o with
  | none => .isFalse (fun h => h)
  | some n => inferInstanceAs (Decidable (0 < n ∧ periodo ≤ n))

/-- The full invariant checked by the post-init validation, on the normalised tipo. -/
def mkCond (valor : ℚ) (periodo : ℤ) (tn : List Char) (pn : Option ℤ) : Prop :=
  -1 < valor ∧ 0 < periodo ∧ (tn = strEfectiva ∨ (tn = strNominal ∧ pnOk periodo pn))

instance (valor : ℚ) (periodo : ℤ) (tn : List Char) (pn : Option ℤ) :
    Decidable (mkCond valor periodo tn pn) :=
  inferInstanceAs (Decidable (_ ∧ _ ∧ _))

theorem strEfectiva_ne_strNominal : strEfectiva ≠ strNominal := by decide

/-- Closed form of construction: it succeeds, storing the inputs unchanged (no
clamping), exactly when the invariant holds, and otherwise raises ValueError. -/
theorem mkTasaInteres_eq (valor : ℚ) (periodo : ℤ) (tipo : List Char) (ant : Bool)
    (pn : Option ℤ) :
    mkTasaInteres valor periodo tipo ant pn =
      if mkCond valor periodo (pyLower (pyStrip tipo)) pn
      then .ok ⟨valor, periodo, pyLower (pyStrip tipo), ant, pn⟩
      else .error .valueErr := by
  rcases pn with _ | n <;> simp only [mkTasaInteres, mkCond]
  · by_cases h1 : valor ≤ -1
    · rw [if_pos h1, if_neg]; rintro ⟨b1, -⟩; linarith
    rw [if_neg h1]
    by_cases h2 : periodo ≤ 0
    · rw [if_pos h2, if_neg]; rintro ⟨-, b2, -⟩; linarith
    rw [if_neg h2]
    by_cases h3 : pyLower (pyStrip tipo) ≠ strEfectiva ∧ pyLower (pyStrip tipo) ≠ strNominal
    · rw [if_pos h3, if_neg]
      rintro ⟨-, -, b3 | ⟨b3, -⟩⟩ <;> exact absurd b3 (by tauto)
    rw [if_neg h3]
    by_cases h4 : pyLower (pyStrip tipo) = strNominal
    · rw [if_pos h4, if_neg]
      rintro ⟨-, -, b3 | ⟨-, b4⟩⟩
      · exact strEfectiva_ne_strNominal (by rw [← b3]; exact h4)
      · exact b4
    · rw [if_neg h4, if_pos]
      refine ⟨by linarith, by linarith, Or.inl ?_⟩
      tauto
  · by_cases h1 : valor ≤ -1
    · rw [if_pos h1, if_neg]; rintro ⟨b1, -⟩; linarith
    rw [if_neg h1]
    by_cases h2 : periodo ≤ 0
    · rw [if_pos h2, if_neg]; rintro ⟨-, b2, -⟩; linarith
    rw [if_neg h2]
    by_cases h3 : pyLower (pyStrip tipo) ≠ strEfectiva ∧ pyLower (pyStrip tipo) ≠ strNominal
    · rw [if_pos h3, if_neg]
      rintro ⟨-, -, b3 | ⟨b3, -⟩⟩ <;> exact absurd b3 (by tauto)
    rw [if_neg h3]
    by_cases h4 : pyLower (pyStrip tipo) = strNominal
    · rw [if_pos h4]
      by_cases h5 : n ≤ 0
      · rw [if_pos h5, if_neg]
        rintro ⟨-, -, b3 | ⟨-, b4, -⟩⟩
        · exact strEfectiva_ne_strNominal (by rw [← b3]; exact h4)
        · omega
      rw [if_neg h5]
      by_cases h6 : n < periodo
      · rw [if_pos h6, if_neg]
        rintro ⟨-, -, b3 | ⟨-, -, b5⟩⟩
        · exact strEfectiva_ne_strNominal (by rw [← b3]; exact h4)
        · omega
      · rw [if_neg h6, if_pos]
        exact ⟨by linarith, by linarith, Or.inr ⟨h4, by omega, by omega⟩⟩
    · rw [if_neg h4, if_pos]
      refine ⟨by linarith, by linarith, Or.inl ?_⟩
      tauto

/-- Successful construction is equivalent to the invariant. -/
theorem mkTasaInteres_isOk_iff (valor : ℚ) (periodo : ℤ) (tipo : List Char) (ant : Bool)
    (pn : Option ℤ) :
    (mkTasaInteres valor periodo tipo ant pn).isOk = true ↔
      mkCond valor periodo (pyLower (pyStrip tipo)) pn := by
  rw [mkTasaInteres_eq]
  by_cases h : mkCond valor periodo (pyLower (pyStrip tipo)) pn
  · rw [if_pos h]; simpa [Except.isOk, Except.toBool] using h
  · rw [if_neg h]; simpa [Except.isOk, Except.toBool] using h

/-- The invariant spelled out the way the post-init checks read. -/
theorem mkCond_iff (valor : ℚ) (periodo : ℤ) (tn : List Char) (pn : Option ℤ) :
    mkCond valor periodo tn pn ↔
      (-1 < valor ∧ 0 < periodo ∧ (tn = strEfectiva ∨ tn = strNominal) ∧
        (tn = strNominal → ∃ n, pn = some n ∧ 0 < n ∧ periodo ≤ n)) := by
  unfold mkCond
  constructor
  · rintro ⟨h1, h2, h3 | ⟨h3, h4⟩⟩
    · refine ⟨h1, h2, Or.inl h3, fun hn => ?_⟩
      exact absurd (by rw [← h3]; exact hn) strEfectiva_ne_strNominal
    · rcases pn with _ | n
      · exact absurd h4 (fun h => h)
      · exact ⟨h1, h2, Or.inr h3, fun _ => ⟨n, rfl, h4.1, h4.2⟩⟩
  · rintro ⟨h1, h2, h3 | h3, h4⟩
    · exact ⟨h1, h2, Or.inl h3⟩
    · rcases h4 h3 with ⟨n, rfl, hn1, hn2⟩
      exact ⟨h1, h2, Or.inr ⟨h3, hn1, hn2⟩⟩

/-- C1 counterexample: constructing a rate with periodo = 5, which is not in
{1, 3, 6, 12}, succeeds (the post-init validation only checks positivity),
contradicting the claim that such a construction fails. -/
theorem C1_period5_construction_succeeds :
    mkTasaInteres (1 / 20) 5 strEfectiva false none =
        .ok ⟨1 / 20, 5, strEfectiva, false, none⟩ ∧
      (5 : ℤ) ∉ ([1, 3, 6, 12] : List ℤ) := by
  constructor
  · decide
  · decide

/-- C1 amended: construction succeeds, storing the inputs unchanged, exactly when
valor > -1, periodo > 0 (membership in {1,3,6,12} is not required), the kind
normalises to one of the two canonical strings, and for nominal kinds
periodo_nominal is present, positive and at least periodo; any violation raises
ValueError rather than clamping. -/
theorem C1_construction_validates (valor : ℚ) (periodo : ℤ) (tipo : List Char) (ant : Bool)
    (pn : Option ℤ) :
    ((∃ t, mkTasaInteres valor periodo tipo ant pn = .ok t) ↔
      (-1 < valor ∧ 0 < periodo ∧
        (pyLower (pyStrip tipo) = strEfectiva ∨ pyLower (pyStrip tipo) = strNominal) ∧
        (pyLower (pyStrip tipo) = strNominal → ∃ n, pn = some n ∧ 0 < n ∧ periodo ≤ n)))
    ∧ (∀ t, mkTasaInteres valor periodo tipo ant pn = .ok t →
        t = ⟨valor, periodo, pyLower (pyStrip tipo), ant, pn⟩)
    ∧ (¬ (-1 < valor ∧ 0 < periodo ∧
          (pyLower (pyStrip tipo) = strEfectiva ∨ pyLower (pyStrip tipo) = strNominal) ∧
          (pyLower (pyStrip tipo) = strNominal → ∃ n, pn = some n ∧ 0 < n ∧ periodo ≤ n)) →
        mkTasaInteres valor periodo tipo ant pn = .error .valueErr) := by
  rw [mkTasaInteres_eq]
  by_cases hc : mkCond valor periodo (pyLower (pyStrip tipo)) pn
  · rw [if_pos hc]
    refine ⟨⟨fun _ => (mkCond_iff _ _ _ _).mp hc, fun _ => ⟨_, rfl⟩⟩, ?_, ?_⟩
    · intro t ht
      rw [Except.ok.injEq] at ht
      exact ht.symm
    · intro h
      exact absurd ((mkCond_iff _ _ _ _).mp hc) h
  · rw [if_neg hc]
    refine ⟨⟨?_, ?_⟩, ?_, fun _ => rfl⟩
    · rintro ⟨t, ht⟩
      cases ht
    · intro h
      exact absurd ((mkCond_iff _ _ _ _).mpr h) hc
    · rintro t ht
      cases ht

/-- C1 witness: a concrete successful construction through the amended theorem. -/
theorem C1_construction_validates_witness :
    ∃ t, mkTasaInteres (1 / 10) 3 strEfectiva false none = .ok t :=
  (C1_construction_validates (1 / 10) 3 strEfectiva false none).1.mpr
    ⟨by norm_num, by decide, Or.inl (by decide), fun h => absurd h (by decide)⟩

/- Calculador: calculador.py. -/

/-- The shared tail of tasa_periodica: convert an anticipated rate to due
(raising if the discount is at least 100 percent) and round. -/
def antAdjust (prec : ℕ) (ant : Bool) (i : ℚ) : Except PyError ℚ :=
  if ant then
    if 1 ≤ i then .error .valueErr
    else .ok (qRound prec (i / (1 - i)))
  else .ok (qRound prec i)

/-- Calculador.tasa_periodica: effective periodic due rate used by every
calculator operation. -/
def tasaPeriodica (prec : ℕ) (t : TasaInteres) : Except PyError ℚ :=
  if t.valor ≤ -1 then .error .valueErr
  else
    let tipo := pyLower (pyStrip t.tipo)
    if tipo = strEfectiva then antAdjust prec t.es_anticipada t.valor
    else if tipo = strNominal then
      match t.periodo_nominal with
      | none => .error .valueErr
      | some pn =>
        if pn ≤ 0 ∨ t.periodo ≤ 0 then .error .valueErr
        else
          let m : ℚ := (pn : ℚ) / (t.periodo : ℚ)
          if m ≤ 0 then .error .valueErr
          else antAdjust prec t.es_anticipada (t.valor / m)
    else .error .valueErr

/-- Calculador.validar_monto_plazos (the isinstance checks are type-level here). -/
def validarMontoPlazos (monto : ℚ) (plazos : ℤ) : Except PyError Unit :=
  if monto < 0 then .error .valueErr
  else if plazos ≤ 0 then .error .valueErr
  else .ok ()

/-- Calculador.calcular_cuota_fija: French-system fixed installment. -/
def calcularCuotaFija (prec : ℕ) (monto : ℚ) (t : TasaInteres) (plazos : ℤ) :
    Except PyError ℚ := do
  let _ ← validarMontoPlazos monto plazos
  let i ← tasaPeriodica prec t
  if i = 0 then .ok (qRound 2 (monto / (plazos : ℚ)))
  else if 1 + i = 0 then .error .zeroDivErr
  else
    let den := 1 - (1 + i) ^ (-plazos)
    if den = 0 then .error .zeroDivErr
    else .ok (qRound 2 (monto * i / den))

/-- Calculador.interes_simple. -/
def interesSimple (prec : ℕ) (principal : ℚ) (t : TasaInteres) (periodos : ℤ) :
    Except PyError ℚ :=
  if principal < 0 ∨ periodos < 0 then .error .valueErr
  else do
    let i ← tasaPeriodica prec t
    .ok (qRound 2 (principal * i * (periodos : ℚ)))

/-- Calculador.valor_futuro. -/
def valorFuturo (prec : ℕ) (vp : ℚ) (t : TasaInteres) (periodos : ℤ) :
    Except PyError ℚ :=
  if vp < 0 ∨ periodos < 0 then .error .valueErr
  else do
    let i ← tasaPeriodica prec t
    .ok (qRound 2 (vp * (1 + i) ^ periodos.toNat))

/-- Calculador.valor_presente. -/
def valorPresente (prec : ℕ) (vf : ℚ) (t : TasaInteres) (periodos : ℤ) :
    Except PyError ℚ :=
  if vf < 0 ∨ periodos < 0 then .error .valueErr
  else do
    let i ← tasaPeriodica prec t
    if 1 + i = 0 ∧ 0 < periodos then .error .zeroDivErr
    else .ok (qRound 2 (vf / (1 + i) ^ periodos.toNat))

/- Convertidor: convertidor.py. -/

/-- Convertidor.cambiar_temporalidad_en_efectivo: re-periodise an effective rate;
the general branch takes a real power with a possibly fractional exponent. -/
noncomputable def cambiarTemporalidad (prec : ℕ) (t : TasaInteres) (nuevo : ℤ) :
    Except PyError TasaInteres :=
  if t.tipo ≠ strEfectiva then .error .valueErr
  else if nuevo ≤ 0 then .error .valueErr
  else if t.periodo = nuevo then
    mkTasaInteres (qRound prec t.valor) t.periodo strEfectiva t.es_anticipada none
  else if t.periodo = 0 then .error .zeroDivErr
  else
    mkTasaInteres
      (rRound prec ((1 + (t.valor : ℝ)) ^ (((nuevo : ℤ) : ℝ) / ((t.periodo : ℤ) : ℝ)) - 1))
      nuevo strEfectiva false none

/-- Convertidor.nominal_a_efectiva_periodica. -/
def nominalAEfectivaPeriodica (prec : ℕ) (t : TasaInteres) : Except PyError TasaInteres :=
  if t.tipo ≠ strNominal then .error .valueErr
  else
    match t.periodo_nominal with
    | none => .error .typeErr
    | some pn =>
      if t.periodo = 0 then .error .zeroDivErr
      else
        let n : ℚ := (pn : ℚ) / (t.periodo : ℚ)
        if n ≤ 0 then .error .valueErr
        else
          let i := t.valor / n
          if t.es_anticipada then
            if 1 ≤ i then .error .valueErr
            else mkTasaInteres (qRound prec (i / (1 - i))) t.periodo strEfectiva false none
          else mkTasaInteres (qRound prec i) t.periodo strEfectiva false none

/-- Convertidor.tasa_a_ea_std: standardise any rate to annual effective. -/
noncomputable def tasaAEaStd (prec : ℕ) (t : TasaInteres) : Except PyError ℚ :=
  if t.tipo = strEfectiva then (cambiarTemporalidad prec t 12).map TasaInteres.valor
  else do
    let ip ← nominalAEfectivaPeriodica prec t
    (cambiarTemporalidad prec ip 12).map TasaInteres.valor

/- Estandarizador: estandarizador.py. -/

/-- Estandarizador.tasa_periodica_vencida (same logic as Calculador.tasa_periodica). -/
def tasaPeriodicaVencida (prec : ℕ) (t : TasaInteres) : Except PyError ℚ :=
  if t.valor ≤ -1 then .error .valueErr
  else
    let tipo := pyLower (pyStrip t.tipo)
    if tipo = strEfectiva then antAdjust prec t.es_anticipada t.valor
    else if tipo = strNominal then
      match t.periodo_nominal with
      | none => .error .valueErr
      | some pn =>
        if pn ≤ 0 ∨ t.periodo ≤ 0 then .error .valueErr
        else
          let m : ℚ := (pn : ℚ) / (t.periodo : ℚ)
          if m ≤ 0 then .error .valueErr
          else antAdjust prec t.es_anticipada (t.valor / m)
    else .error .valueErr

/-- Estandarizador.validar_monto_periodos: periodos >= 0 is accepted for series. -/
def validarMontoPeriodos (valor : ℚ) (periodos : ℤ) : Except PyError Unit :=
  if valor < 0 then .error .valueErr
  else if periodos < 0 then .error .valueErr
  else .ok ()

/-- Estandarizador.graficador_interes_simple: rows (Periodo, Valor) for t = 0..periodos. -/
def graficadorInteresSimple (prec mr : ℕ) (principal : ℚ) (t : TasaInteres) (periodos : ℤ) :
    Except PyError (List (ℤ × ℚ)) := do
  let _ ← validarMontoPeriodos principal periodos
  let i ← tasaPeriodicaVencida prec t
  .ok ((List.range (periodos.toNat + 1)).map
    (fun k : ℕ => ((k : ℤ), qRound mr (principal * (1 + i * (k : ℚ))))))

/-- Estandarizador.graficador_interes_compuesto: rows (Periodo, Valor) for t = 0..periodos. -/
def graficadorInteresCompuesto (prec mr : ℕ) (principal : ℚ) (t : TasaInteres) (periodos : ℤ) :
    Except PyError (List (ℤ × ℚ)) := do
  let _ ← validarMontoPeriodos principal periodos
  let i ← tasaPeriodicaVencida prec t
  .ok ((List.range (periodos.toNat + 1)).map
    (fun k : ℕ => ((k : ℤ), qRound mr (principal * (1 + i) ^ k))))

/- Text grammar: TasaInteres.from_string and TasaInteres.to_string. -/

/-- The regex character class [0-9]. -/
def isDigitChar (c : Char) : Bool := 48 ≤ c.toNat ∧ c.toNat ≤ 57

/-- Numeric value of a big-endian list of decimal digit characters. -/
def digitsVal (l : List Char) : ℕ := l.foldl (fun a c => 10 * a + (c.toNat - 48)) 0

/-- The common percent-number prefix of both regexes: digits, optionally a dot or
comma followed by digits. Returns the integer digits, the fraction digits, and
the rest of the input. -/
def parseNumber (l : List Char) : Option ((List Char × List Char) × List Char) :=
  let d1 := l.takeWhile isDigitChar
  let r1 := l.dropWhile isDigitChar
  if d1.isEmpty then none
  else
    match r1 with
    | c :: rest =>
      if c = '.' ∨ c = ',' then
        let d2 := rest.takeWhile isDigitChar
        let r2 := rest.dropWhile isDigitChar
        if d2.isEmpty then none else some ((d1, d2), r2)
      else some ((d1, []), r1)
    | [] => some ((d1, []), [])

/-- The optional percent sign of both regexes. -/
def dropPercent (l : List Char) : List Char :=
  match l with
  | '%' :: r => r
  | _ => l

/-- Character class [MTSA] of the nominal regex. -/
def isPerChar (c : Char) : Bool := c = 'M' ∨ c = 'T' ∨ c = 'S' ∨ c = 'A'

/-- The PERIODOS table: months per period letter. -/
def periodOf (c : Char) : ℤ :=
  if c = 'M' then 1 else if c = 'T' then 3 else if c = 'S' then 6 else 12

/-- The effective-code alternatives MV, TV, SV, EA, AV of the effective regex. -/
def isEffCode (c1 c2 : Char) : Bool :=
  (c1 = 'M' ∧ c2 = 'V') ∨ (c1 = 'T' ∧ c2 = 'V') ∨ (c1 = 'S' ∧ c2 = 'V') ∨
    (c1 = 'E' ∧ c2 = 'A') ∨ (c1 = 'A' ∧ c2 = 'V')

/-- The EFECTIVAS table: months per effective code. -/
def effPeriodOf (c1 _c2 : Char) : ℤ :=
  if c1 = 'M' then 1 else if c1 = 'T' then 3 else if c1 = 'S' then 6 else 12

/-- The groups captured by the nominal regex. -/
structure NomParts where
  entero : List Char
  frac : List Char
  pNom : Char
  pCap : Char
  va : Char
deriving DecidableEq

/-- Match against the nominal regex (percent)%?N(MTSA)/(MTSA)(VA), anchored. -/
def matchNominal (l : List Char) : Option NomParts :=
  match parseNumber l with
  | none => none
  | some ((d1, d2), r) =>
    match dropPercent r with
    | cN :: c1 :: sl :: c2 :: c3 :: [] =>
      if cN = 'N' ∧ sl = '/' ∧ isPerChar c1 ∧ isPerChar c2 ∧ (c3 = 'V' ∨ c3 = 'A')
      then some ⟨d1, d2, c1, c2, c3⟩
      else none
    | _ => none

/-- Match against the effective regex (percent)%?(MV|TV|SV|EA|AV), anchored. -/
def matchEfectiva (l : List Char) : Option ((List Char × List Char) × Char × Char) :=
  match parseNumber l with
  | none => none
  | some ((d1, d2), r) =>
    match dropPercent r with
    | c1 :: c2 :: [] => if isEffCode c1 c2 then some ((d1, d2), c1, c2) else none
    | _ => none

/-- The percent-to-decimal step: numeric literal divided by 100. -/
def percentVal (d1 d2 : List Char) : ℚ :=
  ((digitsVal d1 : ℚ) + (digitsVal d2 : ℚ) / 10 ^ d2.length) / 100

/-- The raw text from_string matches on: strip, uppercase, remove spaces. -/
def normalizeText (s : List Char) : List Char := pyRemoveSpaces (pyUpper (pyStrip s))

/-- TasaInteres.from_string: parse a nominal or effective rate text. -/
def fromString (s : List Char) : Except PyError TasaInteres :=
  if (pyStrip s).isEmpty then .error .valueErr
  else
    let raw := normalizeText s
    match matchNominal raw with
    | some g =>
      mkTasaInteres (percentVal g.entero g.frac) (periodOf g.pCap) strNominal (g.va = 'A')
        (some (periodOf g.pNom))
    | none =>
      match matchEfectiva raw with
      | some ((d1, d2), c1, c2) =>
        mkTasaInteres (percentVal d1 d2) (effPeriodOf c1 c2) strEfectiva false none
      | none => .error .valueErr

/-- Little-endian decimal digit characters with explicit fuel (structurally
recursive so that concrete evaluation reduces). -/
def natDigitsAux : ℕ → ℕ → List Char
  | 0, _ => []
  | _ + 1, 0 => []
  | fuel + 1, n + 1 => Nat.digitChar ((n + 1) % 10) :: natDigitsAux fuel ((n + 1) / 10)

/-- Decimal digit characters of a natural number (Python str of an int). -/
def fmtNat (n : ℕ) : List Char :=
  if n = 0 then ['0'] else (natDigitsAux n n).reverse

/-- The fuelled digit function agrees with the Mathlib digit expansion. -/
theorem natDigitsAux_eq (fuel : ℕ) : ∀ n, n ≤ fuel →
    natDigitsAux fuel n = (Nat.digits 10 n).map Nat.digitChar := by
  induction fuel with
  | zero =>
    intro n hn
    interval_cases n
    simp [natDigitsAux]
  | succ fuel ih =>
    intro n hn
    match n with
    | 0 => simp [natDigitsAux]
    | m + 1 =>
      rw [show natDigitsAux (fuel + 1) (m + 1) =
          Nat.digitChar ((m + 1) % 10) :: natDigitsAux fuel ((m + 1) / 10) from rfl]
      rw [ih ((m + 1) / 10)
        (by have := Nat.div_lt_self (Nat.succ_pos m) (by norm_num : 1 < 10); omega)]
      rw [Nat.digits_def' (by norm_num : 1 < 10) (Nat.succ_pos m)]
      simp

/-- fmtNat via the Mathlib digit expansion. -/
theorem fmtNat_eq (n : ℕ) :
    fmtNat n = if n = 0 then ['0'] else ((Nat.digits 10 n).map Nat.digitChar).reverse := by
  unfold fmtNat
  by_cases h : n = 0
  · rw [if_pos h, if_pos h]
  · rw [if_neg h, if_neg h, natDigitsAux_eq n n le_rfl]

/-- Python str.rstrip("0"). -/
def stripZeros (l : List Char) : List Char :=
  (l.reverse.dropWhile (fun c => c = '0')).reverse

/-- Decimal rendering of n / 10^p followed by rstrip("0") and rstrip("."):
the integer part, then the fraction digits when they are not all zero. -/
def fmtScaledNat (p : ℕ) (n : ℕ) : List Char :=
  let ip := n / 10 ^ p
  let fp := n % 10 ^ p
  if fp = 0 then fmtNat ip
  else fmtNat ip ++ '.' :: stripZeros (List.replicate (p - (fmtNat fp).length) '0' ++ fmtNat fp)

/-- The magnitude range in which Python repr renders a float n / 10^p
positionally: zero, or at least 10^-4 and below 10^16; outside this range
repr switches to scientific notation. -/
def posRegime (p m : ℕ) : Prop :=
  m = 0 ∨ (10 ^ p ≤ m * 10 ^ 4 ∧ m < 10 ^ (p + 16))

instance (p m : ℕ) : Decidable (posRegime p m) :=
  inferInstanceAs (Decidable (_ ∨ _))

/-- Scientific-notation rendering of n / 10^p (n nonzero): mantissa digits of n
with the point after the leading digit and trailing zeros dropped, then the
exponent with sign and at least two digits, followed by the rstrip("0") of
to_string (which can eat trailing zeros of the exponent). -/
def fmtSciNat (p n : ℕ) : List Char :=
  match fmtNat n with
  | [] => []
  | d :: rest =>
    let e : ℤ := (rest.length : ℤ) - (p : ℤ)
    let mant := if stripZeros rest = [] then [d] else d :: '.' :: stripZeros rest
    let eds := fmtNat e.natAbs
    stripZeros (mant ++ 'e' :: (if e < 0 then '-' else '+') ::
      (List.replicate (2 - eds.length) '0' ++ eds))

/-- Rendering of a signed decimal rational q with q * 10^p integral, as the
composition of Python repr (positional in the positional regime, scientific
notation outside it) with the two rstrips in to_string. -/
def fmtScaled (p : ℕ) (q : ℚ) : List Char :=
  let n : ℤ := ⌊q * 10 ^ p⌋
  if n < 0 then
    '-' :: (if posRegime p (-n).toNat then fmtScaledNat p (-n).toNat
            else fmtSciNat p (-n).toNat)
  else if posRegime p n.toNat then fmtScaledNat p n.toNat
  else fmtSciNat p n.toNat

/-- Python str of an int, for the inv_eff default branch. -/
def intRepr (z : ℤ) : List Char :=
  if z < 0 then '-' :: fmtNat (-z).toNat else fmtNat z.toNat

/-- The inv_eff table with its str(periodo) default. -/
def invEffCode (p : ℤ) : List Char :=
  if p = 1 then ['M', 'V']
  else if p = 3 then ['T', 'V']
  else if p = 6 then ['S', 'V']
  else if p = 12 then ['E', 'A']
  else intRepr p

/-- The inv_p table; a missing key is a KeyError. -/
def invPerChar (p : ℤ) : Option Char :=
  if p = 1 then some 'M'
  else if p = 3 then some 'T'
  else if p = 6 then some 'S'
  else if p = 12 then some 'A'
  else none

/-- TasaInteres.to_string at a display precision. -/
def toText (prec : ℕ) (t : TasaInteres) : Except PyError (List Char) :=
  let pct := qRound prec (t.valor * 100)
  let pctStr := fmtScaled prec pct
  if t.tipo = strEfectiva then
    .ok (pctStr ++ '%' :: ' ' :: invEffCode t.periodo)
  else
    match t.periodo_nominal with
    | none => .error .keyErr
    | some pn =>
      match invPerChar pn, invPerChar t.periodo with
      | some cN, some cC =>
        .ok (pctStr ++ '%' :: ' ' :: 'N' :: cN :: '/' :: cC ::
          [if t.es_anticipada then 'A' else 'V'])
      | _, _ => .error .keyErr

/- C2: Calculador.tasa_periodica versus the conversion-engine reduction. -/

theorem pyNorm_strNominal : pyLower (pyStrip strNominal) = strNominal := by decide

theorem pyNorm_strEfectiva : pyLower (pyStrip strEfectiva) = strEfectiva := by decide

/-- Reduction of tasa_periodica on an effective rate above -100 percent. -/
theorem tasaPeriodica_efectiva_eq (prec : ℕ) (valor : ℚ) (periodo : ℤ) (ant : Bool)
    (pn : Option ℤ) (hv : ¬ valor ≤ -1) :
    tasaPeriodica prec ⟨valor, periodo, strEfectiva, ant, pn⟩ = antAdjust prec ant valor := by
  unfold tasaPeriodica
  try dsimp only
  rw [pyNorm_strEfectiva, if_neg hv, if_pos rfl]

/-- Reduction of tasa_periodica on a nominal rate with admissible periods. -/
theorem tasaPeriodica_nominal_eq (prec : ℕ) (valor : ℚ) (periodo : ℤ) (ant : Bool)
    (pnv : ℤ) (hv : ¬ valor ≤ -1) (h1 : ¬ (pnv ≤ 0 ∨ periodo ≤ 0))
    (h2 : ¬ ((pnv : ℚ) / (periodo : ℚ) ≤ 0)) :
    tasaPeriodica prec ⟨valor, periodo, strNominal, ant, some pnv⟩ =
      antAdjust prec ant (valor / ((pnv : ℚ) / (periodo : ℚ))) := by
  unfold tasaPeriodica
  try dsimp only
  rw [pyNorm_strNominal, if_neg hv,
    if_neg (fun hh => strEfectiva_ne_strNominal hh.symm), if_pos rfl]
  try dsimp only
  rw [if_neg h1, if_neg h2]

/-- The estandarizador twin tasa_periodica_vencida has the same body. -/
theorem tasaPeriodicaVencida_eq (prec : ℕ) (t : TasaInteres) :
    tasaPeriodicaVencida prec t = tasaPeriodica prec t := rfl

theorem antAdjust_true_lt (prec : ℕ) (i : ℚ) (hi : ¬ 1 ≤ i) :
    antAdjust prec true i = .ok (qRound prec (i / (1 - i))) := by
  unfold antAdjust
  rw [if_pos rfl, if_neg hi]

theorem antAdjust_false (prec : ℕ) (i : ℚ) : antAdjust prec false i = .ok (qRound prec i) := by
  unfold antAdjust
  rw [if_neg (by simp)]

/-- C2 counterexample: on the valid anticipated effective rate 50 percent MV the
calculator converts anticipated to due, returning 1, while the conversion
engine's reduction of an effective rate to its periodic effective (the
same-period temporality change) keeps the value 0.5, and its nominal reduction
rejects the rate; so the two are not equivalent on every Rate Value. -/
theorem C2_anticipated_effective_divergence :
    mkTasaInteres (1 / 2) 1 strEfectiva true none =
        .ok ⟨1 / 2, 1, strEfectiva, true, none⟩ ∧
      tasaPeriodica 6 ⟨1 / 2, 1, strEfectiva, true, none⟩ = .ok 1 ∧
      cambiarTemporalidad 6 ⟨1 / 2, 1, strEfectiva, true, none⟩ 1 =
        .ok ⟨1 / 2, 1, strEfectiva, true, none⟩ ∧
      nominalAEfectivaPeriodica 6 ⟨1 / 2, 1, strEfectiva, true, none⟩ = .error .valueErr ∧
      (1 : ℚ) ≠ 1 / 2 := by
  refine ⟨by decide, by decide, by decide, by decide, by decide⟩

/-- C2 amended: the calculator's periodic-rate extraction agrees with the
conversion engine wherever the engine succeeds — for nominal rates with value
above -100 percent it returns exactly the value of the engine's
nominal-to-periodic-effective reduction, and for non-anticipated effective rates
it returns the value rounded, which is also what the engine's same-period
temporality change stores; anticipated effective rates are excluded because
there the calculator alone applies the anticipated-to-due conversion. -/
theorem C2_tasa_periodica_refines_convertidor (prec : ℕ) (t : TasaInteres) :
    (-1 < t.valor →
      ∀ u, nominalAEfectivaPeriodica prec t = .ok u → tasaPeriodica prec t = .ok u.valor)
    ∧ (t.tipo = strEfectiva → t.es_anticipada = false → -1 < t.valor →
        tasaPeriodica prec t = .ok (qRound prec t.valor) ∧
        ∀ u, cambiarTemporalidad prec t t.periodo = .ok u → u.valor = qRound prec t.valor) := by
  obtain ⟨valor, periodo, tipo, ant, pn⟩ := t
  constructor
  · intro hv u h
    have hv2 : -1 < valor := hv
    simp only [nominalAEfectivaPeriodica] at h
    by_cases htipo : tipo ≠ strNominal
    · rw [if_pos htipo] at h
      cases h
    rw [if_neg htipo] at h
    push_neg at htipo
    subst htipo
    rcases pn with _ | pnv
    · cases h
    simp only at h
    by_cases hp0 : periodo = 0
    · rw [if_pos hp0] at h
      cases h
    rw [if_neg hp0] at h
    by_cases hn : (pnv : ℚ) / (periodo : ℚ) ≤ 0
    · rw [if_pos hn] at h
      cases h
    rw [if_neg hn] at h
    push_neg at hn
    cases ant with
    | true =>
      rw [if_pos rfl] at h
      by_cases hi : 1 ≤ valor / ((pnv : ℚ) / (periodo : ℚ))
      · rw [if_pos hi] at h
        cases h
      rw [if_neg hi, mkTasaInteres_eq] at h
      by_cases hc : mkCond (qRound prec (valor / ((pnv : ℚ) / (periodo : ℚ)) /
          (1 - valor / ((pnv : ℚ) / (periodo : ℚ))))) periodo
          (pyLower (pyStrip strEfectiva)) none
      · rw [if_pos hc] at h
        rw [Except.ok.injEq] at h
        subst h
        have hper : 0 < periodo := hc.2.1
        have hpn : 0 < pnv := by
          by_contra hle
          push_neg at hle
          have hq : (pnv : ℚ) ≤ 0 := by exact_mod_cast hle
          have hperq : (0 : ℚ) < (periodo : ℚ) := by exact_mod_cast hper
          exact absurd (div_nonpos_of_nonpos_of_nonneg hq (le_of_lt hperq)) (not_le.mpr hn)
        rw [tasaPeriodica_nominal_eq prec valor periodo true pnv (not_le.mpr hv2)
          (by omega) (not_le.mpr hn)]
        rw [antAdjust_true_lt prec _ hi]
      · rw [if_neg hc] at h
        cases h
    | false =>
      rw [if_neg (by simp)] at h
      rw [mkTasaInteres_eq] at h
      by_cases hc : mkCond (qRound prec (valor / ((pnv : ℚ) / (periodo : ℚ)))) periodo
          (pyLower (pyStrip strEfectiva)) none
      · rw [if_pos hc] at h
        rw [Except.ok.injEq] at h
        subst h
        have hper : 0 < periodo := hc.2.1
        have hpn : 0 < pnv := by
          by_contra hle
          push_neg at hle
          have hq : (pnv : ℚ) ≤ 0 := by exact_mod_cast hle
          have hperq : (0 : ℚ) < (periodo : ℚ) := by exact_mod_cast hper
          exact absurd (div_nonpos_of_nonpos_of_nonneg hq (le_of_lt hperq)) (not_le.mpr hn)
        rw [tasaPeriodica_nominal_eq prec valor periodo false pnv (not_le.mpr hv2)
          (by omega) (not_le.mpr hn)]
        rw [antAdjust_false]
      · rw [if_neg hc] at h
        cases h
  · intro htipo hant hv
    have htipo2 : tipo = strEfectiva := htipo
    have hant2 : ant = false := hant
    have hv2 : -1 < valor := hv
    subst htipo2
    subst hant2
    constructor
    · rw [tasaPeriodica_efectiva_eq prec valor periodo false pn (not_le.mpr hv2),
        antAdjust_false]
    · intro u hu
      unfold cambiarTemporalidad at hu
      try dsimp only at hu
      rw [if_neg (show ¬ (strEfectiva ≠ strEfectiva) from fun hh => hh rfl)] at hu
      by_cases hnp : periodo ≤ 0
      · rw [if_pos hnp] at hu
        cases hu
      rw [if_neg hnp, if_pos rfl, mkTasaInteres_eq] at hu
      by_cases hc : mkCond (qRound prec valor) periodo (pyLower (pyStrip strEfectiva)) none
      · rw [if_pos hc] at hu
        rw [Except.ok.injEq] at hu
        subst hu
        rfl
      · rw [if_neg hc] at hu
        cases hu

/-- C2 witness: the amended equivalence applied to the parsed rate 24 percent
NA/MV, whose engine reduction is the periodic effective 2 percent monthly. -/
theorem C2_tasa_periodica_refines_convertidor_witness :
    tasaPeriodica 6 ⟨6 / 25, 1, strNominal, false, some 12⟩ =
      .ok (⟨1 / 50, 1, strEfectiva, false, none⟩ : TasaInteres).valor :=
  (C2_tasa_periodica_refines_convertidor 6 ⟨6 / 25, 1, strNominal, false, some 12⟩).1
    (by norm_num) ⟨1 / 50, 1, strEfectiva, false, none⟩ (by decide)

/- C4: the parsing grammar. -/

theorem except_bind_ok {ε α β : Type} (a : α) (f : α → Except ε β) :
    (Except.ok a : Except ε α) >>= f = f a := rfl

theorem except_bind_error {ε α β : Type} (e : ε) (f : α → Except ε β) :
    (Except.error e : Except ε α) >>= f = .error e := rfl

theorem percentVal_nonneg (d1 d2 : List Char) : 0 ≤ percentVal d1 d2 := by
  unfold percentVal
  positivity

theorem periodOf_pos (c : Char) : 0 < periodOf c := by
  unfold periodOf
  split_ifs <;> norm_num

theorem effPeriodOf_pos (c1 c2 : Char) : 0 < effPeriodOf c1 c2 := by
  unfold effPeriodOf
  split_ifs <;> norm_num

/-- C4 counterexample: the percent sign is optional in both regexes — the text
6TV with no percent sign parses successfully — and a text matching the nominal
grammar, 24 percent NM/AV, is still rejected because its nominal period is
smaller than its capitalisation period; so acceptance is not exactly
"matches one of the two percent-sign grammars". -/
theorem C4_percent_optional_and_match_can_fail :
    fromString ('6' :: 'T' :: 'V' :: []) = .ok ⟨6 / 100, 3, strEfectiva, false, none⟩ ∧
      (matchNominal (normalizeText "24% NM/AV".data)).isSome = true ∧
      fromString "24% NM/AV".data = .error .valueErr := by
  refine ⟨by decide, by decide, by decide⟩

/-- C4 amended: parsing succeeds exactly when the stripped input is nonempty and
the normalised text matches the nominal regex (with optional percent sign) with
nominal period at least the capitalisation period, or otherwise matches the
effective regex (with optional percent sign). -/
theorem C4_parse_succeeds_iff (s : List Char) :
    (∃ t, fromString s = .ok t) ↔
      ((pyStrip s).isEmpty = false ∧
        (match matchNominal (normalizeText s) with
         | some g => periodOf g.pCap ≤ periodOf g.pNom
         | none => (matchEfectiva (normalizeText s)).isSome = true)) := by
  unfold fromString
  by_cases he : (pyStrip s).isEmpty
  · rw [if_pos he]
    constructor
    · rintro ⟨t, ht⟩
      cases ht
    · rintro ⟨hfalse, -⟩
      rw [he] at hfalse
      cases hfalse
  · rw [if_neg he]
    try dsimp only
    rcases hm : matchNominal (normalizeText s) with _ | g
    · try dsimp only
      rcases hef : matchEfectiva (normalizeText s) with _ | ⟨⟨d1, d2⟩, c1, c2⟩
      · try dsimp only
        constructor
        · rintro ⟨t, ht⟩
          cases ht
        · rintro ⟨-, hcontra⟩
          cases hcontra
      · try dsimp only
        rw [mkTasaInteres_eq, if_pos (show mkCond (percentVal d1 d2) (effPeriodOf c1 c2)
            (pyLower (pyStrip strEfectiva)) none from
          ⟨by have := percentVal_nonneg d1 d2; linarith, effPeriodOf_pos c1 c2,
            Or.inl pyNorm_strEfectiva⟩)]
        constructor
        · intro _
          exact ⟨by simpa using he, rfl⟩
        · intro _
          exact ⟨_, rfl⟩
    · try dsimp only
      rw [mkTasaInteres_eq]
      by_cases hpn : periodOf g.pCap ≤ periodOf g.pNom
      · rw [if_pos (show mkCond (percentVal g.entero g.frac) (periodOf g.pCap)
            (pyLower (pyStrip strNominal)) (some (periodOf g.pNom)) from
          ⟨by have := percentVal_nonneg g.entero g.frac; linarith, periodOf_pos g.pCap,
            Or.inr ⟨pyNorm_strNominal, periodOf_pos g.pNom, hpn⟩⟩)]
        constructor
        · intro _
          exact ⟨by simpa using he, hpn⟩
        · intro _
          exact ⟨_, rfl⟩
      · rw [if_neg (show ¬ mkCond (percentVal g.entero g.frac) (periodOf g.pCap)
            (pyLower (pyStrip strNominal)) (some (periodOf g.pNom)) from ?_)]
        · constructor
          · rintro ⟨t, ht⟩
            cases ht
          · rintro ⟨-, hcontra⟩
            exact absurd hcontra hpn
        · rintro ⟨-, -, hor⟩
          rcases hor with hx | ⟨-, -, hle⟩
          · rw [pyNorm_strNominal] at hx
            exact strEfectiva_ne_strNominal hx.symm
          · exact hpn hle

/- C7: example 1 of the spec. -/

/-- C7: parsing 24 percent NA/MV yields the nominal rate with value 0.24,
capitalisation period 1 month, nominal period 12 months, due (not anticipated),
and standardising it to annual effective at precision 6 gives 0.268242. -/
theorem C7_example_24_NA_MV :
    fromString "24% NA/MV".data = .ok ⟨6 / 25, 1, strNominal, false, some 12⟩ ∧
      tasaAEaStd 6 ⟨6 / 25, 1, strNominal, false, some 12⟩ = .ok (268242 / 1000000) := by
  constructor
  · decide
  · have h1 : nominalAEfectivaPeriodica 6 ⟨6 / 25, 1, strNominal, false, some 12⟩ =
        .ok ⟨1 / 50, 1, strEfectiva, false, none⟩ := by decide
    have h2 : (1 + ((1 / 50 : ℚ) : ℝ)) ^ (((12 : ℤ) : ℝ) / ((1 : ℤ) : ℝ)) - 1 =
        ((((51 / 50 : ℚ)) ^ (12 : ℕ) - 1 : ℚ) : ℝ) := by
      rw [show (((12 : ℤ) : ℝ) / ((1 : ℤ) : ℝ)) = (((12 : ℕ) : ℝ)) by norm_num,
        Real.rpow_natCast]
      push_cast
      norm_num
    have h3 : cambiarTemporalidad 6 ⟨1 / 50, 1, strEfectiva, false, none⟩ 12 =
        .ok ⟨268242 / 1000000, 12, strEfectiva, false, none⟩ := by
      unfold cambiarTemporalidad
      try dsimp only
      rw [if_neg (fun hh => hh rfl), if_neg (by norm_num), if_neg (by norm_num),
        if_neg (by norm_num)]
      rw [h2, rRound_ratCast]
      rw [show qRound 6 ((51 / 50 : ℚ) ^ (12 : ℕ) - 1) = 268242 / 1000000 by decide]
      rw [mkTasaInteres_eq, if_pos (show mkCond (268242 / 1000000) 12
          (pyLower (pyStrip strEfectiva)) none from
        ⟨by norm_num, by norm_num, Or.inl pyNorm_strEfectiva⟩)]
      rw [pyNorm_strEfectiva]
    unfold tasaAEaStd
    rw [if_neg (fun hh => strEfectiva_ne_strNominal hh.symm)]
    rw [show (do
        let ip ← nominalAEfectivaPeriodica 6
          (⟨6 / 25, 1, strNominal, false, some 12⟩ : TasaInteres)
        (cambiarTemporalidad 6 ip 12).map TasaInteres.valor : Except PyError ℚ) =
      (cambiarTemporalidad 6 ⟨1 / 50, 1, strEfectiva, false, none⟩ 12).map TasaInteres.valor
      by rw [h1]; rfl]
    rw [h3]
    rfl

/- C8: zero-rate installment. -/

/-- C8: whenever the extracted periodic rate is exactly 0, the fixed-installment
computation returns amount divided by terms rounded to 2 decimals, through the
straight-line branch that never evaluates the annuity denominator. -/
theorem C8_zero_rate_installment (prec : ℕ) (monto : ℚ) (t : TasaInteres) (plazos : ℤ)
    (hm : 0 ≤ monto) (hp : 0 < plazos) (hi : tasaPeriodica prec t = .ok 0) :
    calcularCuotaFija prec monto t plazos = .ok (qRound 2 (monto / (plazos : ℚ))) := by
  unfold calcularCuotaFija
  have hval : validarMontoPlazos monto plazos = .ok () := by
    unfold validarMontoPlazos
    rw [if_neg (not_lt.mpr hm), if_neg (by omega)]
  rw [hval, except_bind_ok, hi, except_bind_ok, if_pos rfl]

/-- C8 witness: a concrete zero-rate installment. -/
theorem C8_zero_rate_installment_witness :
    calcularCuotaFija 6 100 ⟨0, 1, strEfectiva, false, none⟩ 4 =
      .ok (qRound 2 (100 / ((4 : ℤ) : ℚ))) :=
  C8_zero_rate_installment 6 100 ⟨0, 1, strEfectiva, false, none⟩ 4 (by norm_num)
    (by norm_num) (by decide)

/- C9: series generators. -/

/-- C9 counterexample: on the valid anticipated effective rate 150 percent MV,
whose periodic-rate extraction fails (discount at least 100 percent), both series
generators raise ValueError instead of returning terms + 1 rows, although the
principal and the term count are admissible. -/
theorem C9_anticipated_rate_series_error :
    mkTasaInteres (3 / 2) 1 strEfectiva true none =
        .ok ⟨3 / 2, 1, strEfectiva, true, none⟩ ∧
      graficadorInteresSimple 6 2 100 ⟨3 / 2, 1, strEfectiva, true, none⟩ 3 =
        .error .valueErr ∧
      graficadorInteresCompuesto 6 2 100 ⟨3 / 2, 1, strEfectiva, true, none⟩ 3 =
        .error .valueErr ∧
      (0 : ℚ) ≤ 100 ∧ (0 : ℤ) ≤ 3 := by
  refine ⟨by decide, by decide, by decide, by norm_num, by decide⟩

/-- C9 amended: whenever the periodic-rate extraction succeeds with value i, and
principal and terms are admissible, both generators return exactly the rows
(k, round(P(1+ik))) respectively (k, round(P(1+i)^k)) for k = 0..terms in order
— terms + 1 rows — and the row at index 0 carries the principal rounded to money
precision. -/
theorem C9_series_rows (prec mr : ℕ) (P : ℚ) (t : TasaInteres) (n : ℤ) (i : ℚ)
    (hP : 0 ≤ P) (hn : 0 ≤ n) (hi : tasaPeriodicaVencida prec t = .ok i) :
    graficadorInteresSimple prec mr P t n =
        .ok ((List.range (n.toNat + 1)).map
          (fun k : ℕ => ((k : ℤ), qRound mr (P * (1 + i * (k : ℚ)))))) ∧
      graficadorInteresCompuesto prec mr P t n =
        .ok ((List.range (n.toNat + 1)).map
          (fun k : ℕ => ((k : ℤ), qRound mr (P * (1 + i) ^ k)))) ∧
      ((List.range (n.toNat + 1)).map
        (fun k : ℕ => ((k : ℤ), qRound mr (P * (1 + i * (k : ℚ)))))).length = n.toNat + 1 ∧
      ((List.range (n.toNat + 1)).map
        (fun k : ℕ => ((k : ℤ), qRound mr (P * (1 + i) ^ k)))).length = n.toNat + 1 ∧
      qRound mr (P * (1 + i * ((0 : ℕ) : ℚ))) = qRound mr P ∧
      qRound mr (P * (1 + i) ^ (0 : ℕ)) = qRound mr P := by
  have hval : validarMontoPeriodos P n = .ok () := by
    unfold validarMontoPeriodos
    rw [if_neg (not_lt.mpr hP), if_neg (by omega)]
  refine ⟨?_, ?_, by rw [List.length_map, List.length_range],
    by rw [List.length_map, List.length_range], by norm_num, by norm_num⟩
  · unfold graficadorInteresSimple
    rw [hval, except_bind_ok, hi, except_bind_ok]
  · unfold graficadorInteresCompuesto
    rw [hval, except_bind_ok, hi, except_bind_ok]

/-- C9 witness: the 10 percent monthly rate over 2 periods, 3 rows. -/
theorem C9_series_rows_witness :
    graficadorInteresSimple 6 2 100 ⟨1 / 10, 1, strEfectiva, false, none⟩ 2 =
        .ok ((List.range ((2 : ℤ).toNat + 1)).map
          (fun k : ℕ => ((k : ℤ), qRound 2 (100 * (1 + 1 / 10 * (k : ℚ)))))) ∧
      graficadorInteresCompuesto 6 2 100 ⟨1 / 10, 1, strEfectiva, false, none⟩ 2 =
        .ok ((List.range ((2 : ℤ).toNat + 1)).map
          (fun k : ℕ => ((k : ℤ), qRound 2 (100 * (1 + 1 / 10) ^ k)))) ∧
      ((List.range ((2 : ℤ).toNat + 1)).map
        (fun k : ℕ => ((k : ℤ), qRound 2 (100 * (1 + 1 / 10 * (k : ℚ)))))).length =
        (2 : ℤ).toNat + 1 ∧
      ((List.range ((2 : ℤ).toNat + 1)).map
        (fun k : ℕ => ((k : ℤ), qRound 2 (100 * (1 + 1 / 10) ^ k)))).length = (2 : ℤ).toNat + 1 ∧
      qRound 2 ((100 : ℚ) * (1 + 1 / 10 * ((0 : ℕ) : ℚ))) = qRound 2 (100 : ℚ) ∧
      qRound 2 ((100 : ℚ) * (1 + 1 / 10) ^ (0 : ℕ)) = qRound 2 (100 : ℚ) :=
  C9_series_rows 6 2 100 ⟨1 / 10, 1, strEfectiva, false, none⟩ 2 (1 / 10) (by norm_num)
    (by decide) (by decide)

/- C10: periodos = 0 at the public interface. -/

/-- C10 counterexample: valor_futuro raises ValueError on the valid anticipated
effective rate 150 percent MV even though the amount is nonnegative and
periodos = 0, so the errors are not only about negative amounts or periods. -/
theorem C10_rate_extraction_error_blocks :
    mkTasaInteres (3 / 2) 1 strEfectiva true none =
        .ok ⟨3 / 2, 1, strEfectiva, true, none⟩ ∧
      valorFuturo 6 100 ⟨3 / 2, 1, strEfectiva, true, none⟩ 0 = .error .valueErr ∧
      (0 : ℚ) ≤ 100 := by
  refine ⟨by decide, by decide, by norm_num⟩

/-- C10 amended: given a rate whose periodic extraction succeeds with value i
and a nonnegative amount, valor_futuro, valor_presente and interes_simple
accept periodos = 0 — returning the amount (respectively 0) rounded to 2
decimals, valor_presente included even when i = -1; interes_simple and
valor_futuro succeed for every periodos >= 0; valor_presente succeeds for
every periodos >= 0 when i is not exactly -1, but raises ZeroDivisionError for
periodos > 0 when the rounded extraction yields i = -1 (reachable from a valid
rate, since round(-0.9999996, 6) = -1); all three raise ValueError for
negative periodos; calcular_cuota_fija instead rejects plazos = 0 with
ValueError. -/
theorem C10_zero_periods_accepted (prec : ℕ) (t : TasaInteres) (i : ℚ)
    (hext : tasaPeriodica prec t = .ok i) (monto : ℚ) (hm : 0 ≤ monto) :
    valorFuturo prec monto t 0 = .ok (qRound 2 monto)
    ∧ valorPresente prec monto t 0 = .ok (qRound 2 monto)
    ∧ interesSimple prec monto t 0 = .ok 0
    ∧ (∀ n : ℤ, 0 ≤ n → (interesSimple prec monto t n).isOk = true ∧
        (valorFuturo prec monto t n).isOk = true)
    ∧ (∀ n : ℤ, 0 ≤ n → 1 + i ≠ 0 → (valorPresente prec monto t n).isOk = true)
    ∧ (∀ n : ℤ, 0 < n → 1 + i = 0 → valorPresente prec monto t n = .error .zeroDivErr)
    ∧ (∀ n : ℤ, n < 0 → interesSimple prec monto t n = .error .valueErr ∧
        valorFuturo prec monto t n = .error .valueErr ∧
        valorPresente prec monto t n = .error .valueErr)
    ∧ calcularCuotaFija prec monto t 0 = .error .valueErr := by
  refine ⟨?_, ?_, ?_, ?_, ?_, ?_, ?_, ?_⟩
  · unfold valorFuturo
    rw [if_neg (by push_neg; exact ⟨hm, le_rfl⟩), hext, except_bind_ok]
    rw [show ((0 : ℤ).toNat) = 0 from rfl, pow_zero, mul_one]
  · unfold valorPresente
    rw [if_neg (by push_neg; exact ⟨hm, le_rfl⟩), hext, except_bind_ok]
    rw [if_neg (by rintro ⟨-, hh⟩; omega)]
    rw [show ((0 : ℤ).toNat) = 0 from rfl, pow_zero, div_one]
  · unfold interesSimple
    rw [if_neg (by push_neg; exact ⟨hm, le_rfl⟩), hext, except_bind_ok]
    rw [show (((0 : ℤ) : ℚ)) = 0 from rfl, mul_zero, qRound_zero]
  · intro n hn
    constructor
    · unfold interesSimple
      rw [if_neg (by push_neg; exact ⟨hm, hn⟩), hext, except_bind_ok]
      rfl
    · unfold valorFuturo
      rw [if_neg (by push_neg; exact ⟨hm, hn⟩), hext, except_bind_ok]
      rfl
  · intro n hn hi
    unfold valorPresente
    rw [if_neg (by push_neg; exact ⟨hm, hn⟩), hext, except_bind_ok]
    rw [if_neg (by rintro ⟨h1, -⟩; exact hi h1)]
    rfl
  · intro n hn hi
    unfold valorPresente
    rw [if_neg (by push_neg; exact ⟨hm, by omega⟩), hext, except_bind_ok]
    rw [if_pos ⟨hi, hn⟩]
  · intro n hn
    refine ⟨?_, ?_, ?_⟩
    · unfold interesSimple
      rw [if_pos (Or.inr hn)]
    · unfold valorFuturo
      rw [if_pos (Or.inr hn)]
    · unfold valorPresente
      rw [if_pos (Or.inr hn)]
  · unfold calcularCuotaFija
    have hval : validarMontoPlazos monto 0 = .error .valueErr := by
      unfold validarMontoPlazos
      rw [if_neg (not_lt.mpr hm), if_pos le_rfl]
    rw [hval, except_bind_error]

/-- C10 witness: the amended statement at the 10 percent monthly rate and
amount 100, together with a concrete valid rate whose rounded extraction is
exactly -1 and makes valor_presente raise ZeroDivisionError at periodos = 1. -/
theorem C10_zero_periods_accepted_witness :
    (valorFuturo 6 100 ⟨1 / 10, 1, strEfectiva, false, none⟩ 0 = .ok (qRound 2 100)
    ∧ valorPresente 6 100 ⟨1 / 10, 1, strEfectiva, false, none⟩ 0 = .ok (qRound 2 100)
    ∧ interesSimple 6 100 ⟨1 / 10, 1, strEfectiva, false, none⟩ 0 = .ok 0
    ∧ (∀ n : ℤ, 0 ≤ n →
        (interesSimple 6 100 ⟨1 / 10, 1, strEfectiva, false, none⟩ n).isOk = true ∧
        (valorFuturo 6 100 ⟨1 / 10, 1, strEfectiva, false, none⟩ n).isOk = true)
    ∧ (∀ n : ℤ, 0 ≤ n → 1 + (1 / 10 : ℚ) ≠ 0 →
        (valorPresente 6 100 ⟨1 / 10, 1, strEfectiva, false, none⟩ n).isOk = true)
    ∧ (∀ n : ℤ, 0 < n → 1 + (1 / 10 : ℚ) = 0 →
        valorPresente 6 100 ⟨1 / 10, 1, strEfectiva, false, none⟩ n = .error .zeroDivErr)
    ∧ (∀ n : ℤ, n < 0 →
        interesSimple 6 100 ⟨1 / 10, 1, strEfectiva, false, none⟩ n = .error .valueErr ∧
        valorFuturo 6 100 ⟨1 / 10, 1, strEfectiva, false, none⟩ n = .error .valueErr ∧
        valorPresente 6 100 ⟨1 / 10, 1, strEfectiva, false, none⟩ n = .error .valueErr)
    ∧ calcularCuotaFija 6 100 ⟨1 / 10, 1, strEfectiva, false, none⟩ 0 = .error .valueErr)
    ∧ (tasaPeriodica 6 ⟨-(9999996 / 10 ^ 7), 1, strEfectiva, false, none⟩ = .ok (-1)
    ∧ valorPresente 6 100 ⟨-(9999996 / 10 ^ 7), 1, strEfectiva, false, none⟩ 1 =
        .error .zeroDivErr) :=
  ⟨C10_zero_periods_accepted 6 ⟨1 / 10, 1, strEfectiva, false, none⟩ (1 / 10) (by decide)
    100 (by norm_num), by decide, by decide⟩

/- C6: periodicity composition a to b to a. -/

theorem sub_le_pow_sub {u w : ℝ} (h1 : 1 ≤ w) (h2 : w ≤ u) (k : ℕ) :
    u - w ≤ u ^ (k + 1) - w ^ (k + 1) := by
  have hw0 : (0 : ℝ) ≤ w := by linarith
  have hpow : w ^ k ≤ u ^ k := pow_le_pow_left hw0 h2 k
  have h1k : (1 : ℝ) ≤ w ^ k := by
    calc (1 : ℝ) = 1 ^ k := (one_pow k).symm
    _ ≤ w ^ k := pow_le_pow_left (by norm_num) h1 k
  have e1 : u ^ (k + 1) - w ^ (k + 1) = u * u ^ k - w * w ^ k := by ring
  have e2 : u * w ^ k ≤ u * u ^ k := mul_le_mul_of_nonneg_left hpow (by linarith)
  have e4 : (u - w) * 1 ≤ (u - w) * w ^ k := mul_le_mul_of_nonneg_left h1k (by linarith)
  nlinarith

/-- Taking k-th roots of reals at least 1 does not increase distances. -/
theorem abs_rpow_inv_sub_le {k : ℕ} (hk : k ≠ 0) {x y : ℝ} (hx : 1 ≤ x) (hy : 1 ≤ y) :
    |x ^ ((k : ℝ))⁻¹ - y ^ ((k : ℝ))⁻¹| ≤ |x - y| := by
  have main : ∀ {x y : ℝ}, 1 ≤ y → y ≤ x → x ^ ((k : ℝ))⁻¹ - y ^ ((k : ℝ))⁻¹ ≤ x - y := by
    intro x y hy1 hyx
    have hy0 : (0 : ℝ) ≤ y := by linarith
    have hx0 : (0 : ℝ) ≤ x := by linarith
    have hu : (x ^ ((k : ℝ))⁻¹) ^ k = x := Real.rpow_inv_natCast_pow hx0 hk
    have hw : (y ^ ((k : ℝ))⁻¹) ^ k = y := Real.rpow_inv_natCast_pow hy0 hk
    have hw1 : 1 ≤ y ^ ((k : ℝ))⁻¹ := Real.one_le_rpow hy1 (by positivity)
    have hwu : y ^ ((k : ℝ))⁻¹ ≤ x ^ ((k : ℝ))⁻¹ :=
      Real.rpow_le_rpow hy0 hyx (by positivity)
    obtain ⟨m, rfl⟩ : ∃ m, k = m + 1 := ⟨k - 1, by omega⟩
    have := sub_le_pow_sub hw1 hwu m
    rw [hu, hw] at this
    exact this
  rcases le_total y x with hxy | hxy
  · have h1 : y ^ ((k : ℝ))⁻¹ ≤ x ^ ((k : ℝ))⁻¹ :=
      Real.rpow_le_rpow (by linarith) hxy (by positivity)
    rw [abs_of_nonneg (by linarith), abs_of_nonneg (by linarith)]
    exact main hy hxy
  · have h1 : x ^ ((k : ℝ))⁻¹ ≤ y ^ ((k : ℝ))⁻¹ :=
      Real.rpow_le_rpow (by linarith) hxy (by positivity)
    rw [abs_of_nonpos (by linarith), abs_of_nonpos (by linarith)]
    linarith [main hx hxy]

/-- Elimination for the general (different-period) branch of the temporality change. -/
theorem cambiarTemporalidad_ok_elim (p : ℕ) (valor : ℚ) (per : ℤ) (ant : Bool)
    (pn : Option ℤ) (nuevo : ℤ) (u : TasaInteres) (hneq : ¬ per = nuevo) (hper0 : ¬ per = 0)
    (h : cambiarTemporalidad p ⟨valor, per, strEfectiva, ant, pn⟩ nuevo = .ok u) :
    u = ⟨rRound p ((1 + (valor : ℝ)) ^ (((nuevo : ℤ) : ℝ) / ((per : ℤ) : ℝ)) - 1),
      nuevo, strEfectiva, false, none⟩ := by
  unfold cambiarTemporalidad at h
  try dsimp only at h
  rw [if_neg (fun hh => hh rfl)] at h
  by_cases hb : nuevo ≤ 0
  · rw [if_pos hb] at h
    cases h
  rw [if_neg hb, if_neg hneq, if_neg hper0, mkTasaInteres_eq] at h
  by_cases hc : mkCond (rRound p ((1 + (valor : ℝ)) ^
      (((nuevo : ℤ) : ℝ) / ((per : ℤ) : ℝ)) - 1)) nuevo (pyLower (pyStrip strEfectiva)) none
  · rw [if_pos hc] at h
    rw [Except.ok.injEq] at h
    rw [← h, pyNorm_strEfectiva]
  · rw [if_neg hc] at h
    cases h

/-- Elimination for the same-period (copy) branch of the temporality change. -/
theorem cambiarTemporalidad_ok_elim_same (p : ℕ) (valor : ℚ) (per : ℤ) (ant : Bool)
    (pn : Option ℤ) (u : TasaInteres)
    (h : cambiarTemporalidad p ⟨valor, per, strEfectiva, ant, pn⟩ per = .ok u) :
    u = ⟨qRound p valor, per, strEfectiva, ant, none⟩ := by
  unfold cambiarTemporalidad at h
  try dsimp only at h
  rw [if_neg (fun hh => hh rfl)] at h
  by_cases hb : per ≤ 0
  · rw [if_pos hb] at h
    cases h
  rw [if_neg hb, if_pos rfl, mkTasaInteres_eq] at h
  by_cases hc : mkCond (qRound p valor) per (pyLower (pyStrip strEfectiva)) none
  · rw [if_pos hc] at h
    rw [Except.ok.injEq] at h
    rw [← h, pyNorm_strEfectiva]
  · rw [if_neg hc] at h
    cases h

/-- C6 counterexample: for the effective annual rate (2.0000015^12 - 1) at the
default precision 6, converting period 12 to 1 rounds the monthly rate from
1.0000015 up to 1.000002, and converting back amplifies that rounding step
through the twelfth power to an error above 0.01 — far beyond the rounding
tolerance implied by precision 6. -/
theorem C6_composition_counterexample :
    cambiarTemporalidad 6
        ⟨(4000003 / 2000000 : ℚ) ^ (12 : ℕ) - 1, 12, strEfectiva, false, none⟩ 1 =
      .ok ⟨500001 / 500000, 1, strEfectiva, false, none⟩ ∧
    cambiarTemporalidad 6 ⟨500001 / 500000, 1, strEfectiva, false, none⟩ 12 =
      .ok ⟨63985143 / 15625, 12, strEfectiva, false, none⟩ ∧
    1 / 100 < |(63985143 / 15625 : ℚ) - ((4000003 / 2000000 : ℚ) ^ (12 : ℕ) - 1)| ∧
    -1 < (4000003 / 2000000 : ℚ) ^ (12 : ℕ) - 1 ∧
    (12 : ℤ) ∈ ([1, 3, 6, 12] : List ℤ) ∧ (1 : ℤ) ∈ ([1, 3, 6, 12] : List ℤ) := by
  refine ⟨?_, ?_, by decide, by decide, by decide, by decide⟩
  · unfold cambiarTemporalidad
    try dsimp only
    rw [if_neg (fun hh => hh rfl), if_neg (by norm_num), if_neg (by norm_num),
      if_neg (by norm_num)]
    rw [show (1 : ℝ) + (((4000003 / 2000000 : ℚ) ^ (12 : ℕ) - 1 : ℚ) : ℝ) =
        ((4000003 / 2000000 : ℚ) : ℝ) ^ (12 : ℕ) by push_cast; ring]
    rw [show (((1 : ℤ) : ℝ) / ((12 : ℤ) : ℝ)) = (((12 : ℕ) : ℝ))⁻¹ by norm_num]
    rw [Real.pow_rpow_inv_natCast (by positivity) (by norm_num)]
    rw [show (((4000003 / 2000000 : ℚ) : ℝ) - 1) = (((4000003 / 2000000 - 1 : ℚ)) : ℝ) by
      push_cast; ring]
    rw [rRound_ratCast]
    rw [show qRound 6 (4000003 / 2000000 - 1 : ℚ) = 500001 / 500000 by decide]
    rw [mkTasaInteres_eq, if_pos (show mkCond (500001 / 500000) 1
        (pyLower (pyStrip strEfectiva)) none from
      ⟨by norm_num, by norm_num, Or.inl pyNorm_strEfectiva⟩), pyNorm_strEfectiva]
  · unfold cambiarTemporalidad
    try dsimp only
    rw [if_neg (fun hh => hh rfl), if_neg (by norm_num), if_neg (by norm_num),
      if_neg (by norm_num)]
    rw [show (1 : ℝ) + ((500001 / 500000 : ℚ) : ℝ) = ((1000001 / 500000 : ℚ) : ℝ) by
      push_cast; norm_num]
    rw [show (((12 : ℤ) : ℝ) / ((1 : ℤ) : ℝ)) = (((12 : ℕ) : ℝ)) by norm_num,
      Real.rpow_natCast]
    rw [show ((1000001 / 500000 : ℚ) : ℝ) ^ (12 : ℕ) - 1 =
        (((1000001 / 500000 : ℚ) ^ (12 : ℕ) - 1 : ℚ) : ℝ) by push_cast; ring]
    rw [rRound_ratCast]
    rw [show qRound 6 ((1000001 / 500000 : ℚ) ^ (12 : ℕ) - 1) = 63985143 / 15625 by decide]
    rw [mkTasaInteres_eq, if_pos (show mkCond (63985143 / 15625) 12
        (pyLower (pyStrip strEfectiva)) none from
      ⟨by norm_num, by norm_num, Or.inl pyNorm_strEfectiva⟩), pyNorm_strEfectiva]

/-- C6 amended: for nonnegative effective rates and periods a <= b from
{1,3,6,12} (so that the return exponent a/b is the reciprocal of the integer
b/a and the intermediate rounding is not amplified), converting a to b and back
returns the original value within one unit of the rounding grid, 10^-p. -/
theorem C6_composition_within_tolerance (p : ℕ) (v : ℚ) (a b : ℤ) (ant : Bool)
    (pn : Option ℤ) (hv : 0 ≤ v) (ha : a ∈ ([1, 3, 6, 12] : List ℤ))
    (hb : b ∈ ([1, 3, 6, 12] : List ℤ)) (hab : a ≤ b) (t1 t2 : TasaInteres)
    (h1 : cambiarTemporalidad p ⟨v, a, strEfectiva, ant, pn⟩ b = .ok t1)
    (h2 : cambiarTemporalidad p t1 a = .ok t2) :
    |t2.valor - v| ≤ 1 / (10 : ℚ) ^ p := by
  have hhalf : (1 : ℝ) / (2 * 10 ^ p) + 1 / (2 * 10 ^ p) = 1 / 10 ^ p := by
    field_simp
    ring
  obtain ⟨k, hk1, hk2, ha0⟩ : ∃ k : ℕ, 0 < k ∧ b = a * k ∧ 0 < a := by
    fin_cases ha <;> fin_cases hb <;>
      first
        | (exfalso; omega)
        | (refine ⟨1, ?_, ?_, ?_⟩ <;> decide)
        | (refine ⟨2, ?_, ?_, ?_⟩ <;> decide)
        | (refine ⟨3, ?_, ?_, ?_⟩ <;> decide)
        | (refine ⟨4, ?_, ?_, ?_⟩ <;> decide)
        | (refine ⟨6, ?_, ?_, ?_⟩ <;> decide)
        | (refine ⟨12, ?_, ?_, ?_⟩ <;> decide)
  by_cases hab2 : a = b
  · subst hab2
    have e1 := cambiarTemporalidad_ok_elim_same p v a ant pn t1 h1
    subst e1
    have e2 := cambiarTemporalidad_ok_elim_same p (qRound p v) a ant none t2 h2
    subst e2
    have : |qRound p (qRound p v) - v| = |qRound p v - v| := by rw [qRound_idem]
    calc |(⟨qRound p (qRound p v), a, strEfectiva, ant, none⟩ : TasaInteres).valor - v|
        = |qRound p v - v| := this
      _ ≤ 1 / (2 * 10 ^ p) := abs_qRound_sub p v
      _ ≤ 1 / (10 : ℚ) ^ p := by
          apply div_le_div_of_nonneg_left (by norm_num) (by positivity)
          nlinarith [pow_pos (show (0:ℚ) < 10 by norm_num) p]
  · have hba : ¬ b = a := fun hh => hab2 hh.symm
    have hb0 : (0 : ℤ) < b := by
      rw [hk2]
      exact mul_pos ha0 (by exact_mod_cast hk1)
    have e1 := cambiarTemporalidad_ok_elim p v a ant pn b t1 hab2 (by omega) h1
    subst e1
    have e2 := cambiarTemporalidad_ok_elim p _ b false none a t2 hba (by omega) h2
    subst e2
    have hkR : ((k : ℕ) : ℝ) ≠ 0 := by exact_mod_cast Nat.pos_iff_ne_zero.mp hk1
    have haR : ((a : ℤ) : ℝ) ≠ 0 := by
      exact_mod_cast (by omega : a ≠ 0)
    have hexp1 : (((b : ℤ) : ℝ) / ((a : ℤ) : ℝ)) = (((k : ℕ) : ℝ)) := by
      rw [hk2]
      push_cast
      field_simp
    have hexp2 : (((a : ℤ) : ℝ) / ((b : ℤ) : ℝ)) = (((k : ℕ) : ℝ))⁻¹ := by
      rw [hk2]
      push_cast
      rw [div_mul_cancel_left₀ haR]
    have hv1 : (1 : ℝ) ≤ 1 + (v : ℚ) := by
      have : (0 : ℝ) ≤ ((v : ℚ) : ℝ) := by exact_mod_cast hv
      linarith
    set X : ℝ := (1 + ((v : ℚ) : ℝ)) ^ (k : ℕ) with hX
    have hX1 : (1 : ℝ) ≤ X := by
      calc (1 : ℝ) = 1 ^ (k : ℕ) := (one_pow _).symm
      _ ≤ X := pow_le_pow_left (by norm_num) hv1 _
    have hrw1 : (1 + ((v : ℚ) : ℝ)) ^ (((b : ℤ) : ℝ) / ((a : ℤ) : ℝ)) - 1 = X - 1 := by
      rw [hexp1, Real.rpow_natCast]
    rw [hrw1]
    set w : ℚ := rRound p (X - 1) with hw
    have hw0 : (0 : ℚ) ≤ w := rRound_nonneg (by linarith)
    have hwX : |((w : ℚ) : ℝ) - (X - 1)| ≤ 1 / (2 * 10 ^ p) := abs_rRound_sub p (X - 1)
    have hw1 : (1 : ℝ) ≤ 1 + ((w : ℚ) : ℝ) := by
      have : (0 : ℝ) ≤ ((w : ℚ) : ℝ) := by exact_mod_cast hw0
      linarith
    set Y : ℝ := (1 + ((w : ℚ) : ℝ)) ^ (((k : ℕ) : ℝ))⁻¹ with hY
    have hYval : (1 + ((w : ℚ) : ℝ)) ^ (((a : ℤ) : ℝ) / ((b : ℤ) : ℝ)) - 1 = Y - 1 := by
      rw [hexp2]
    rw [hYval]
    have hroot : X ^ (((k : ℕ) : ℝ))⁻¹ = 1 + ((v : ℚ) : ℝ) :=
      Real.pow_rpow_inv_natCast (by linarith) (Nat.pos_iff_ne_zero.mp hk1)
    have hY2 : |Y - (1 + ((v : ℚ) : ℝ))| ≤ |(1 + ((w : ℚ) : ℝ)) - X| := by
      rw [← hroot]
      exact abs_rpow_inv_sub_le (Nat.pos_iff_ne_zero.mp hk1) hw1 hX1
    have hY3 : |(1 + ((w : ℚ) : ℝ)) - X| = |((w : ℚ) : ℝ) - (X - 1)| := by
      congr 1
      ring
    have hfin : |((rRound p (Y - 1) : ℚ) : ℝ) - ((v : ℚ) : ℝ)| ≤ 1 / 10 ^ p := by
      have hr := abs_rRound_sub p (Y - 1)
      calc |((rRound p (Y - 1) : ℚ) : ℝ) - ((v : ℚ) : ℝ)|
          = |(((rRound p (Y - 1) : ℚ) : ℝ) - (Y - 1)) + ((Y - 1) - ((v : ℚ) : ℝ))| := by
            congr 1
            ring
        _ ≤ |((rRound p (Y - 1) : ℚ) : ℝ) - (Y - 1)| + |(Y - 1) - ((v : ℚ) : ℝ)| :=
            abs_add _ _
        _ ≤ 1 / (2 * 10 ^ p) + |Y - (1 + ((v : ℚ) : ℝ))| := by
            have he : (Y - 1) - ((v : ℚ) : ℝ) = Y - (1 + ((v : ℚ) : ℝ)) := by ring
            rw [he]
            exact add_le_add hr le_rfl
        _ ≤ 1 / (2 * 10 ^ p) + 1 / (2 * 10 ^ p) := by
            have := le_trans hY2 (le_of_eq hY3)
            exact add_le_add le_rfl (le_trans this hwX)
        _ = 1 / 10 ^ p := hhalf
    have hq : ((1 / (10 : ℚ) ^ p : ℚ) : ℝ) = 1 / (10 : ℝ) ^ p := by
      push_cast
      ring
    show |rRound p (Y - 1) - v| ≤ 1 / (10 : ℚ) ^ p
    rw [← Rat.cast_le (K := ℝ), Rat.cast_abs, hq]
    push_cast
    convert hfin using 2

/-- C6 witness: the identity-period composition at 10 percent quarterly. -/
theorem C6_composition_within_tolerance_witness :
    |(⟨1 / 10, 3, strEfectiva, false, none⟩ : TasaInteres).valor - (1 / 10 : ℚ)| ≤
      1 / (10 : ℚ) ^ 6 :=
  C6_composition_within_tolerance 6 (1 / 10) 3 3 false none (by norm_num) (by decide)
    (by decide) (by decide) ⟨1 / 10, 3, strEfectiva, false, none⟩
    ⟨1 / 10, 3, strEfectiva, false, none⟩ (by decide) (by decide)

/- C5: round-trip of parsing and formatting. Digit-value layer. -/

theorem digitsVal_go (l : List Char) : ∀ acc : ℕ,
    l.foldl (fun a c => 10 * a + (c.toNat - 48)) acc =
      acc * 10 ^ l.length + digitsVal l := by
  induction l with
  | nil => intro acc; simp [digitsVal]
  | cons c cs ih =>
    intro acc
    rw [List.foldl_cons]
    rw [ih (10 * acc + (c.toNat - 48))]
    rw [show digitsVal (c :: cs) =
      (10 * 0 + (c.toNat - 48)) * 10 ^ cs.length + digitsVal cs by
        unfold digitsVal
        rw [List.foldl_cons, ih (10 * 0 + (c.toNat - 48))]
        rfl]
    rw [List.length_cons]
    ring

theorem digitsVal_append (l1 l2 : List Char) :
    digitsVal (l1 ++ l2) = digitsVal l1 * 10 ^ l2.length + digitsVal l2 := by
  unfold digitsVal
  rw [List.foldl_append]
  rw [digitsVal_go l2 (List.foldl (fun a c => 10 * a + (c.toNat - 48)) 0 l1)]
  rfl

theorem digitsVal_replicate_zero (k : ℕ) : digitsVal (List.replicate k '0') = 0 := by
  induction k with
  | zero => rfl
  | succ k ih =>
    rw [List.replicate_succ']
    rw [digitsVal_append, ih]
    rfl

theorem digitChar_sub (d : ℕ) (h : d < 10) : (Nat.digitChar d).toNat - 48 = d := by
  interval_cases d <;> rfl

theorem digitChar_isDigit (d : ℕ) (h : d < 10) : isDigitChar (Nat.digitChar d) = true := by
  interval_cases d <;> rfl

theorem digitsVal_rev_map (L : List ℕ) (h : ∀ d ∈ L, d < 10) :
    digitsVal ((L.map Nat.digitChar).reverse) = Nat.ofDigits 10 L := by
  induction L with
  | nil => rfl
  | cons d L ih =>
    rw [List.map_cons, List.reverse_cons, digitsVal_append]
    rw [ih (fun x hx => h x (List.mem_cons_of_mem d hx))]
    rw [Nat.ofDigits_cons]
    rw [show digitsVal [Nat.digitChar d] = 10 * 0 + ((Nat.digitChar d).toNat - 48) from rfl]
    rw [digitChar_sub d (h d (List.mem_cons_self d L))]
    simp
    ring

theorem digitsVal_fmtNat (n : ℕ) : digitsVal (fmtNat n) = n := by
  rw [fmtNat_eq]
  by_cases h : n = 0
  · rw [if_pos h, h]
    rfl
  · rw [if_neg h]
    rw [digitsVal_rev_map _ (fun d hd => Nat.digits_lt_base (by norm_num) hd)]
    exact Nat.ofDigits_digits 10 n

theorem fmtNat_all_digits (n : ℕ) : ∀ c ∈ fmtNat n, isDigitChar c = true := by
  rw [fmtNat_eq]
  by_cases h : n = 0
  · rw [if_pos h]
    intro c hc
    rw [List.mem_singleton] at hc
    subst hc
    rfl
  · rw [if_neg h]
    intro c hc
    rw [List.mem_reverse, List.mem_map] at hc
    obtain ⟨d, hd, rfl⟩ := hc
    exact digitChar_isDigit d (Nat.digits_lt_base (by norm_num) hd)

theorem fmtNat_ne_nil (n : ℕ) : fmtNat n ≠ [] := by
  rw [fmtNat_eq]
  by_cases h : n = 0
  · rw [if_pos h]
    simp
  · rw [if_neg h]
    simp only [ne_eq, List.reverse_eq_nil_iff, List.map_eq_nil_iff]
    exact Nat.digits_ne_nil_iff_ne_zero.mpr h

theorem fmtNat_len_le (p n : ℕ) (hn : n ≠ 0) (h : n < 10 ^ p) : (fmtNat n).length ≤ p := by
  rw [fmtNat_eq, if_neg hn, List.length_reverse, List.length_map]
  have h1 : 10 ^ (Nat.digits 10 n).length ≤ 10 * n :=
    Nat.base_pow_length_digits_le 10 n (by norm_num) hn
  have h2 : 10 * n < 10 * 10 ^ p := by omega
  have h3 : 10 ^ (Nat.digits 10 n).length < 10 ^ (p + 1) := by
    rw [pow_succ]
    omega
  have h4 : (Nat.digits 10 n).length < p + 1 :=
    (Nat.pow_lt_pow_iff_right (by norm_num)).mp h3
  omega

/- List-surgery lemmas for the round-trip. -/

theorem takeWhile_append_eq {P : Char → Bool} : ∀ (l r : List Char),
    (∀ c ∈ l, P c = true) → (∀ c, r.head? = some c → P c = false) →
    (l ++ r).takeWhile P = l ∧ (l ++ r).dropWhile P = r := by
  intro l
  induction l with
  | nil =>
    intro r hl hr
    constructor
    · cases r with
      | nil => rfl
      | cons c cs =>
        rw [List.nil_append, List.takeWhile_cons, hr c rfl]
        simp
    · cases r with
      | nil => rfl
      | cons c cs =>
        rw [List.nil_append, List.dropWhile_cons, hr c rfl]
        simp
  | cons a l ih =>
    intro r hl hr
    have ha : P a = true := hl a (List.mem_cons_self a l)
    have hrest := ih r (fun c hc => hl c (List.mem_cons_of_mem a hc)) hr
    constructor
    · rw [List.cons_append, List.takeWhile_cons, ha]
      simp [hrest.1]
    · rw [List.cons_append, List.dropWhile_cons, ha]
      simp [hrest.2]

theorem dropWhile_eq_self_of_head {P : Char → Bool} (l : List Char)
    (h : ∀ c, l.head? = some c → P c = false) : l.dropWhile P = l := by
  cases l with
  | nil => rfl
  | cons c cs =>
    rw [List.dropWhile_cons, h c rfl]
    simp

theorem pyStrip_eq_self (l : List Char)
    (hh : ∀ c, l.head? = some c → isPySpace c = false)
    (ht : ∀ c, l.reverse.head? = some c → isPySpace c = false) : pyStrip l = l := by
  unfold pyStrip
  rw [dropWhile_eq_self_of_head l hh, dropWhile_eq_self_of_head l.reverse ht,
    List.reverse_reverse]

theorem stripZeros_decomp (l : List Char) :
    ∃ k, l = stripZeros l ++ List.replicate k '0' := by
  refine ⟨(l.reverse.takeWhile (fun c => c = '0')).length, ?_⟩
  have hsplit : l.reverse.takeWhile (fun c => c = '0') ++
      l.reverse.dropWhile (fun c => c = '0') = l.reverse :=
    List.takeWhile_append_dropWhile _ _
  have htake : l.reverse.takeWhile (fun c => c = '0') =
      List.replicate (l.reverse.takeWhile (fun c => c = '0')).length '0' := by
    apply List.eq_replicate_of_mem
    intro b hb
    have := List.mem_takeWhile_imp hb
    simpa using this
  calc l = l.reverse.reverse := (List.reverse_reverse l).symm
  _ = (l.reverse.takeWhile (fun c => c = '0') ++
      l.reverse.dropWhile (fun c => c = '0')).reverse := by rw [hsplit]
  _ = (l.reverse.dropWhile (fun c => c = '0')).reverse ++
      (l.reverse.takeWhile (fun c => c = '0')).reverse := by rw [List.reverse_append]
  _ = stripZeros l ++ List.replicate (l.reverse.takeWhile (fun c => c = '0')).length '0' := by
      rw [show stripZeros l = (l.reverse.dropWhile (fun c => c = '0')).reverse from rfl]
      conv_lhs => rw [htake]
      rw [List.reverse_replicate]

theorem stripZeros_val (l : List Char) :
    ∃ k, l = stripZeros l ++ List.replicate k '0' ∧
      digitsVal l = digitsVal (stripZeros l) * 10 ^ k ∧
      l.length = (stripZeros l).length + k := by
  obtain ⟨k, hk⟩ := stripZeros_decomp l
  refine ⟨k, hk, ?_, ?_⟩
  · conv_lhs => rw [hk]
    rw [digitsVal_append, digitsVal_replicate_zero, List.length_replicate]
    ring
  · conv_lhs => rw [hk]
    rw [List.length_append, List.length_replicate]

theorem stripZeros_sublist (l : List Char) : ∀ c ∈ stripZeros l, c ∈ l := by
  intro c hc
  obtain ⟨k, hk⟩ := stripZeros_decomp l
  rw [hk, List.mem_append]
  exact Or.inl hc

theorem stripZeros_ne_nil (l : List Char) (h : digitsVal l ≠ 0) : stripZeros l ≠ [] := by
  intro hnil
  obtain ⟨k, hk, hv, -⟩ := stripZeros_val l
  rw [hnil] at hv
  exact h (by simpa [digitsVal] using hv)

/- Character-class facts for the round-trip. -/

theorem digitChar_facts (c : Char) (h : isDigitChar c = true) :
    isPySpace c = false ∧ upperChar c = c ∧ c ≠ ' ' := by
  have hn : 48 ≤ c.toNat ∧ c.toNat ≤ 57 := of_decide_eq_true h
  refine ⟨?_, ?_, ?_⟩
  · rw [show isPySpace c =
      decide (c = ' ' ∨ c = '\t' ∨ c = '\n' ∨ c = '\r' ∨ c = '\x0b' ∨ c = '\x0c') from rfl]
    rw [decide_eq_false_iff_not]
    rintro (rfl | rfl | rfl | rfl | rfl | rfl) <;> exact absurd hn (by decide)
  · unfold upperChar
    rw [if_neg]
    rintro ⟨h1, -⟩
    omega
  · rintro rfl
    exact absurd hn (by decide)

theorem fmtScaledNat_chars (p M : ℕ) :
    ∀ c ∈ fmtScaledNat p M, isDigitChar c = true ∨ c = '.' := by
  unfold fmtScaledNat
  by_cases hfp : M % 10 ^ p = 0
  · rw [if_pos hfp]
    intro c hc
    exact Or.inl (fmtNat_all_digits _ c hc)
  · rw [if_neg hfp]
    intro c hc
    rw [List.mem_append] at hc
    rcases hc with hc | hc
    · exact Or.inl (fmtNat_all_digits _ c hc)
    · rw [List.mem_cons] at hc
      rcases hc with rfl | hc
      · exact Or.inr rfl
      · have hc2 := stripZeros_sublist _ c hc
        rw [List.mem_append] at hc2
        rcases hc2 with hc2 | hc2
        · rw [List.eq_of_mem_replicate hc2]
          exact Or.inl rfl
        · exact Or.inl (fmtNat_all_digits _ c hc2)

theorem fmtScaledNat_head (p M : ℕ) :
    ∀ c, (fmtScaledNat p M).head? = some c → isDigitChar c = true := by
  unfold fmtScaledNat
  obtain ⟨c0, cs0, h0⟩ := List.exists_cons_of_ne_nil (fmtNat_ne_nil (M / 10 ^ p))
  have hd0 : isDigitChar c0 = true := by
    apply fmtNat_all_digits (M / 10 ^ p)
    rw [h0]
    exact List.mem_cons_self c0 cs0
  by_cases hfp : M % 10 ^ p = 0
  · rw [if_pos hfp, h0]
    intro c hc
    rw [List.head?_cons, Option.some.injEq] at hc
    rw [← hc]
    exact hd0
  · rw [if_neg hfp, h0]
    intro c hc
    rw [List.cons_append, List.head?_cons, Option.some.injEq] at hc
    rw [← hc]
    exact hd0

theorem fmtScaledNat_ne_nil (p M : ℕ) : fmtScaledNat p M ≠ [] := by
  unfold fmtScaledNat
  by_cases hfp : M % 10 ^ p = 0
  · rw [if_pos hfp]
    exact fmtNat_ne_nil _
  · rw [if_neg hfp]
    intro hh
    rw [List.append_eq_nil] at hh
    exact fmtNat_ne_nil _ hh.1

/-- Parsing the decimal rendering of M / 10^p followed by a non-numeric tail
recovers exactly M / 10^p and the tail. -/
theorem parseNumber_fmtScaledNat (p M : ℕ) (rest : List Char)
    (hrest : ∀ c, rest.head? = some c → isDigitChar c = false ∧ ¬(c = '.' ∨ c = ',')) :
    ∃ d1 d2 : List Char,
      parseNumber (fmtScaledNat p M ++ rest) = some ((d1, d2), rest) ∧
      (digitsVal d1 : ℚ) + (digitsVal d2 : ℚ) / 10 ^ d2.length = (M : ℚ) / 10 ^ p := by
  have hM : 10 ^ p * (M / 10 ^ p) + M % 10 ^ p = M := Nat.div_add_mod M (10 ^ p)
  have hppos : (0 : ℕ) < 10 ^ p := by positivity
  unfold fmtScaledNat
  by_cases hfp : M % 10 ^ p = 0
  · rw [if_pos hfp]
    obtain ⟨ht, hd⟩ := takeWhile_append_eq (fmtNat (M / 10 ^ p)) rest
      (fmtNat_all_digits _) (fun c hc => (hrest c hc).1)
    refine ⟨fmtNat (M / 10 ^ p), [], ?_, ?_⟩
    · unfold parseNumber
      rw [ht, hd]
      rw [if_neg (by
        rw [List.isEmpty_iff]
        exact fmtNat_ne_nil _)]
      cases rest with
      | nil => rfl
      | cons c cs =>
        have := (hrest c rfl).2
        simp only
        rw [if_neg this]
    · rw [digitsVal_fmtNat]
      rw [show digitsVal ([] : List Char) = 0 from rfl]
      rw [show (([] : List Char)).length = 0 from rfl]
      have : (M : ℚ) = (10 : ℚ) ^ p * ((M / 10 ^ p : ℕ) : ℚ) := by
        rw [show ((M / 10 ^ p : ℕ) : ℚ) = ((M / 10 ^ p : ℕ) : ℚ) from rfl]
        exact_mod_cast (by omega : M = 10 ^ p * (M / 10 ^ p))
      rw [this]
      field_simp
  · rw [if_neg hfp]
    have hfplt : M % 10 ^ p < 10 ^ p := Nat.mod_lt M hppos
    have hlen : (fmtNat (M % 10 ^ p)).length ≤ p := fmtNat_len_le p _ hfp hfplt
    set L0 : List Char :=
      List.replicate (p - (fmtNat (M % 10 ^ p)).length) '0' ++ fmtNat (M % 10 ^ p) with hL0
    have hL0digits : ∀ c ∈ L0, isDigitChar c = true := by
      intro c hc
      rw [hL0, List.mem_append] at hc
      rcases hc with hc | hc
      · rw [List.eq_of_mem_replicate hc]
        rfl
      · exact fmtNat_all_digits _ c hc
    have hL0val : digitsVal L0 = M % 10 ^ p := by
      rw [hL0, digitsVal_append, digitsVal_replicate_zero, digitsVal_fmtNat]
      ring
    have hL0len : L0.length = p := by
      rw [hL0, List.length_append, List.length_replicate]
      omega
    set s : List Char := stripZeros L0 with hs
    obtain ⟨k, hdec, hval, hklen⟩ := stripZeros_val L0
    have hsdigits : ∀ c ∈ s, isDigitChar c = true :=
      fun c hc => hL0digits c (stripZeros_sublist L0 c hc)
    have hsne : s ≠ [] := stripZeros_ne_nil L0 (by rw [hL0val]; exact hfp)
    obtain ⟨ht, hd⟩ := takeWhile_append_eq (fmtNat (M / 10 ^ p)) ('.' :: (s ++ rest))
      (fmtNat_all_digits _) (fun c hc => by
        rw [List.head?_cons, Option.some.injEq] at hc
        rw [← hc]
        rfl)
    obtain ⟨ht2, hd2⟩ := takeWhile_append_eq s rest hsdigits (fun c hc => (hrest c hc).1)
    refine ⟨fmtNat (M / 10 ^ p), s, ?_, ?_⟩
    · rw [List.append_assoc, List.cons_append]
      unfold parseNumber
      rw [ht, hd]
      rw [if_neg (by
        rw [List.isEmpty_iff]
        exact fmtNat_ne_nil _)]
      simp only
      rw [if_pos (Or.inl trivial), ht2, hd2]
      rw [if_neg (by
        rw [List.isEmpty_iff]
        exact hsne)]
    · rw [digitsVal_fmtNat]
      have hn2 : M % 10 ^ p = digitsVal s * 10 ^ k := by
        rw [hs, ← hL0val]
        exact hval
      have hMn : M = 10 ^ p * (M / 10 ^ p) + digitsVal s * 10 ^ k := by omega
      have hMq : (M : ℚ) = (10 : ℚ) ^ p * ((M / 10 ^ p : ℕ) : ℚ) +
          (digitsVal s : ℚ) * (10 : ℚ) ^ k := by
        exact_mod_cast hMn
      have hslen : s.length + k = p := by
        have hthis := hklen
        rw [← hs] at hthis
        omega
      rw [hMq]
      rw [show (10 : ℚ) ^ p = 10 ^ s.length * 10 ^ k by rw [← pow_add, hslen]]
      have h10 : (10 : ℚ) ^ s.length ≠ 0 := by positivity
      have h10k : (10 : ℚ) ^ k ≠ 0 := by positivity
      field_simp
      ring

/- Normalisation of formatted output and re-matching. -/

theorem normalizeText_out (prec N : ℕ) (code : List Char) (hcode : code ≠ [])
    (hcchars : ∀ c ∈ code, upperChar c = c ∧ isPySpace c = false ∧ c ≠ ' ') :
    pyStrip (fmtScaledNat prec N ++ '%' :: ' ' :: code) =
      fmtScaledNat prec N ++ '%' :: ' ' :: code ∧
    normalizeText (fmtScaledNat prec N ++ '%' :: ' ' :: code) =
      fmtScaledNat prec N ++ '%' :: code := by
  set out : List Char := fmtScaledNat prec N ++ '%' :: ' ' :: code with hout
  have hfmt3 : ∀ c ∈ fmtScaledNat prec N, upperChar c = c ∧ isPySpace c = false ∧ c ≠ ' ' := by
    intro c hc
    rcases fmtScaledNat_chars prec N c hc with hd | rfl
    · obtain ⟨ha, hb, hc2⟩ := digitChar_facts c hd
      exact ⟨hb, ha, hc2⟩
    · exact ⟨by decide, by decide, by decide⟩
  have hstrip : pyStrip out = out := by
    apply pyStrip_eq_self
    · intro c hc
      obtain ⟨c0, cs0, h0⟩ := List.exists_cons_of_ne_nil (fmtScaledNat_ne_nil prec N)
      rw [hout, h0, List.cons_append, List.head?_cons, Option.some.injEq] at hc
      have hd0 : isDigitChar c0 = true := by
        apply fmtScaledNat_head prec N
        rw [h0]
        rfl
      rw [← hc]
      exact (digitChar_facts c0 hd0).1
    · intro c hc
      obtain ⟨cL, csL, hcL⟩ := List.exists_cons_of_ne_nil
        (show code.reverse ≠ [] by simpa using hcode)
      rw [hout, List.reverse_append, show ('%' :: ' ' :: code).reverse =
        code.reverse ++ [' ', '%'] by simp, hcL] at hc
      rw [List.cons_append, List.cons_append, List.head?_cons, Option.some.injEq] at hc
      have hmem : cL ∈ code := by
        have hmem2 : cL ∈ code.reverse := by
          rw [hcL]
          exact List.mem_cons_self cL csL
        simpa using hmem2
      rw [← hc]
      exact (hcchars cL hmem).2.1
  have hupper : pyUpper out = out := by
    unfold pyUpper
    have hpt : ∀ c ∈ out, upperChar c = id c := by
      intro c hc
      rw [hout, List.mem_append] at hc
      rcases hc with hc | hc
      · exact (hfmt3 c hc).1
      · rw [List.mem_cons] at hc
        rcases hc with rfl | hc
        · decide
        · rw [List.mem_cons] at hc
          rcases hc with rfl | hc
          · decide
          · exact (hcchars c hc).1
    rw [List.map_congr_left hpt, List.map_id]
  have hfilter : pyRemoveSpaces out = fmtScaledNat prec N ++ '%' :: code := by
    unfold pyRemoveSpaces
    rw [hout, List.filter_append]
    rw [List.filter_eq_self.mpr (fun c hc => by
      rw [decide_eq_true_iff]
      exact (hfmt3 c hc).2.2)]
    rw [show List.filter (fun c => decide (c ≠ ' ')) ('%' :: ' ' :: code) =
      '%' :: List.filter (fun c => decide (c ≠ ' ')) code by
        rw [List.filter_cons, List.filter_cons]
        simp only [show (decide ('%' ≠ ' ')) = true from by decide,
          show (decide (' ' ≠ ' ')) = false from by decide]
        simp]
    rw [List.filter_eq_self.mpr (fun c hc => by
      rw [decide_eq_true_iff]
      exact (hcchars c hc).2.2)]
  refine ⟨hstrip, ?_⟩
  unfold normalizeText
  rw [hstrip, hupper, hfilter]

theorem percentRest_ok (tail : List Char) :
    ∀ c, ('%' :: tail : List Char).head? = some c →
      isDigitChar c = false ∧ ¬(c = '.' ∨ c = ',') := by
  intro c hc
  rw [List.head?_cons, Option.some.injEq] at hc
  subst hc
  exact ⟨rfl, by decide⟩

theorem matchEfectiva_fmt (p M : ℕ) (c1 c2 : Char) (hc : isEffCode c1 c2 = true) :
    ∃ d1 d2 : List Char,
      matchEfectiva (fmtScaledNat p M ++ '%' :: c1 :: c2 :: []) = some ((d1, d2), c1, c2) ∧
      percentVal d1 d2 = (M : ℚ) / 10 ^ p / 100 := by
  obtain ⟨d1, d2, hparse, hvalue⟩ :=
    parseNumber_fmtScaledNat p M ('%' :: c1 :: c2 :: []) (percentRest_ok _)
  refine ⟨d1, d2, ?_, ?_⟩
  · unfold matchEfectiva
    rw [hparse]
    show (if isEffCode c1 c2 = true then some ((d1, d2), c1, c2) else none) =
      some ((d1, d2), c1, c2)
    rw [if_pos hc]
  · unfold percentVal
    rw [hvalue]

theorem matchNominal_eff_none (p M : ℕ) (c1 c2 : Char) :
    matchNominal (fmtScaledNat p M ++ '%' :: c1 :: c2 :: []) = none := by
  obtain ⟨d1, d2, hparse, -⟩ :=
    parseNumber_fmtScaledNat p M ('%' :: c1 :: c2 :: []) (percentRest_ok _)
  unfold matchNominal
  rw [hparse]
  rfl

theorem matchNominal_fmt (p M : ℕ) (cN cC va : Char) (h1 : isPerChar cN = true)
    (h2 : isPerChar cC = true) (h3 : va = 'V' ∨ va = 'A') :
    ∃ d1 d2 : List Char,
      matchNominal (fmtScaledNat p M ++ '%' :: 'N' :: cN :: '/' :: cC :: va :: []) =
        some ⟨d1, d2, cN, cC, va⟩ ∧
      percentVal d1 d2 = (M : ℚ) / 10 ^ p / 100 := by
  obtain ⟨d1, d2, hparse, hvalue⟩ :=
    parseNumber_fmtScaledNat p M ('%' :: 'N' :: cN :: '/' :: cC :: va :: [])
      (percentRest_ok _)
  refine ⟨d1, d2, ?_, ?_⟩
  · unfold matchNominal
    rw [hparse]
    show (if 'N' = 'N' ∧ '/' = '/' ∧ isPerChar cN = true ∧ isPerChar cC = true ∧
        (va = 'V' ∨ va = 'A') then some (⟨d1, d2, cN, cC, va⟩ : NomParts) else none) =
      some (⟨d1, d2, cN, cC, va⟩ : NomParts)
    rw [if_pos ⟨rfl, rfl, h1, h2, h3⟩]
  · unfold percentVal
    rw [hvalue]

/- C5: round-trip of parsing, formatting and re-parsing. -/

/-- Scaling a rounded value back by the grid recovers the banker-rounded integer. -/
theorem floor_qRound (p : ℕ) (x : ℚ) : ⌊qRound p x * 10 ^ p⌋ = bankers (x * 10 ^ p) := by
  unfold qRound
  rw [div_mul_cancel₀ _ (show (10 : ℚ) ^ p ≠ 0 by positivity), Int.floor_intCast]

/-- For nonnegative inputs the rounded value is a natural numerator over the grid. -/
theorem qRound_toNat_repr (p : ℕ) (x : ℚ) (hx : 0 ≤ x) :
    qRound p x = ((bankers (x * 10 ^ p)).toNat : ℚ) / 10 ^ p := by
  have hb : (0 : ℤ) ≤ bankers (x * 10 ^ p) := bankers_nonneg (mul_nonneg hx (by positivity))
  unfold qRound
  congr 1
  exact_mod_cast (Int.toNat_of_nonneg hb).symm

/-- Formatting a nonnegative rounded value in the positional regime takes the
nonnegative positional branch. -/
theorem fmtScaled_qRound (p : ℕ) (x : ℚ) (hx : 0 ≤ x)
    (hreg : posRegime p (bankers (x * 10 ^ p)).toNat) :
    fmtScaled p (qRound p x) = fmtScaledNat p (bankers (x * 10 ^ p)).toNat := by
  have hb : (0 : ℤ) ≤ bankers (x * 10 ^ p) := bankers_nonneg (mul_nonneg hx (by positivity))
  unfold fmtScaled
  try dsimp only
  rw [floor_qRound]
  rw [if_neg (show ¬ bankers (x * 10 ^ p) < 0 by omega)]
  rw [if_pos hreg]

/-- The positional regime of the rounded numerator, in terms of the rounded
value itself: zero or in [10^-4, 10^16). -/
theorem posRegime_iff (p : ℕ) (v : ℚ) (hv : 0 ≤ v) :
    posRegime p (bankers (v * 10 ^ p)).toNat ↔
      (qRound p v = 0 ∨ (1 / 10 ^ 4 ≤ qRound p v ∧ qRound p v < 10 ^ 16)) := by
  have hq := qRound_toNat_repr p v hv
  set N : ℕ := (bankers (v * 10 ^ p)).toNat with hN
  have hp : (0 : ℚ) < 10 ^ p := by positivity
  have e0 : ((N : ℚ) / 10 ^ p = 0) ↔ N = 0 := by
    rw [div_eq_zero_iff, or_iff_left (show (10 : ℚ) ^ p ≠ 0 by positivity)]
    exact Nat.cast_eq_zero
  have e1 : ((1 : ℚ) / 10 ^ 4 ≤ (N : ℚ) / 10 ^ p) ↔ 10 ^ p ≤ N * 10 ^ 4 := by
    rw [div_le_div_iff (by positivity) hp, one_mul]
    rw [show ((N : ℚ) * 10 ^ 4) = ((N * 10 ^ 4 : ℕ) : ℚ) by push_cast; ring,
      show ((10 : ℚ) ^ p) = ((10 ^ p : ℕ) : ℚ) by push_cast; ring, Nat.cast_le]
  have e2 : ((N : ℚ) / 10 ^ p < 10 ^ 16) ↔ N < 10 ^ (p + 16) := by
    rw [div_lt_iff hp]
    rw [show ((10 : ℚ) ^ 16 * 10 ^ p) = ((10 ^ (p + 16) : ℕ) : ℚ) by push_cast; ring,
      Nat.cast_lt]
  unfold posRegime
  rw [hq, e0, e1, e2]

/-- Rounding a percentage at precision p and scaling back to decimal moves the
value by at most half a decimal step of the percentage grid. -/
theorem percent_roundtrip_bound (prec : ℕ) (v : ℚ) (hv : 0 ≤ v) :
    |((bankers (v * 100 * 10 ^ prec)).toNat : ℚ) / 10 ^ prec / 100 - v| ≤
      1 / (200 * (10 : ℚ) ^ prec) := by
  rw [← qRound_toNat_repr prec (v * 100) (mul_nonneg hv (by norm_num))]
  have hb := abs_qRound_sub prec (v * 100)
  have h100 : |qRound prec (v * 100) / 100 - v| =
      |qRound prec (v * 100) - v * 100| / 100 := by
    rw [show qRound prec (v * 100) / 100 - v = (qRound prec (v * 100) - v * 100) / 100 by
      ring, abs_div]
    norm_num
  rw [h100]
  calc |qRound prec (v * 100) - v * 100| / 100
      ≤ 1 / (2 * 10 ^ prec) / 100 := by gcongr
    _ = 1 / (200 * (10 : ℚ) ^ prec) := by ring

/-- The inv_eff table on the four valid periods, with the facts re-parsing needs. -/
theorem invEffCode_cases (per : ℤ) (hper : per = 1 ∨ per = 3 ∨ per = 6 ∨ per = 12) :
    ∃ c1 c2 : Char, invEffCode per = [c1, c2] ∧ isEffCode c1 c2 = true ∧
      effPeriodOf c1 c2 = per ∧
      (∀ c ∈ [c1, c2], upperChar c = c ∧ isPySpace c = false ∧ c ≠ ' ') := by
  rcases hper with rfl | rfl | rfl | rfl
  · exact ⟨'M', 'V', by decide, by decide, by decide, by decide⟩
  · exact ⟨'T', 'V', by decide, by decide, by decide, by decide⟩
  · exact ⟨'S', 'V', by decide, by decide, by decide, by decide⟩
  · exact ⟨'E', 'A', by decide, by decide, by decide, by decide⟩

/-- The inv_p table on the four valid periods, with the facts re-parsing needs. -/
theorem invPerChar_cases (per : ℤ) (hper : per = 1 ∨ per = 3 ∨ per = 6 ∨ per = 12) :
    ∃ c : Char, invPerChar per = some c ∧ isPerChar c = true ∧ periodOf c = per ∧
      (upperChar c = c ∧ isPySpace c = false ∧ c ≠ ' ') := by
  rcases hper with rfl | rfl | rfl | rfl
  · exact ⟨'M', by decide, by decide, by decide, by decide⟩
  · exact ⟨'T', by decide, by decide, by decide, by decide⟩
  · exact ⟨'S', by decide, by decide, by decide, by decide⟩
  · exact ⟨'A', by decide, by decide, by decide, by decide⟩

/-- Every PERIODOS lookup lands in the four valid month counts. -/
theorem periodOf_cases (c : Char) :
    periodOf c = 1 ∨ periodOf c = 3 ∨ periodOf c = 6 ∨ periodOf c = 12 := by
  unfold periodOf
  split_ifs <;> simp

/-- Every EFECTIVAS lookup lands in the four valid month counts. -/
theorem effPeriodOf_cases (c1 c2 : Char) :
    effPeriodOf c1 c2 = 1 ∨ effPeriodOf c1 c2 = 3 ∨ effPeriodOf c1 c2 = 6 ∨
      effPeriodOf c1 c2 = 12 := by
  unfold effPeriodOf
  split_ifs <;> simp

/-- Every rate from_string accepts is either the nominal regex payload with
nominal period at least the capitalisation period, or the effective payload. -/
theorem fromString_ok_shape (s : List Char) (t : TasaInteres)
    (h : fromString s = .ok t) :
    (∃ g : NomParts,
      t = ⟨percentVal g.entero g.frac, periodOf g.pCap, strNominal,
        decide (g.va = 'A'), some (periodOf g.pNom)⟩ ∧
      periodOf g.pCap ≤ periodOf g.pNom) ∨
    (∃ d1 d2 : List Char, ∃ c1 c2 : Char,
      t = ⟨percentVal d1 d2, effPeriodOf c1 c2, strEfectiva, false, none⟩) := by
  unfold fromString at h
  by_cases he : (pyStrip s).isEmpty = true
  · rw [if_pos he] at h
    exact Except.noConfusion h
  rw [if_neg he] at h
  try dsimp only at h
  rcases hm : matchNominal (normalizeText s) with _ | g
  · try rw [hm] at h
    try dsimp only at h
    rcases hef : matchEfectiva (normalizeText s) with _ | ⟨⟨d1, d2⟩, c1, c2⟩
    · try rw [hef] at h
      try dsimp only at h
      exact Except.noConfusion h
    · try rw [hef] at h
      try dsimp only at h
      right
      rw [mkTasaInteres_eq] at h
      by_cases hc : mkCond (percentVal d1 d2) (effPeriodOf c1 c2)
          (pyLower (pyStrip strEfectiva)) none
      · rw [if_pos hc, pyNorm_strEfectiva] at h
        injection h with h2
        exact ⟨d1, d2, c1, c2, h2.symm⟩
      · rw [if_neg hc] at h
        exact Except.noConfusion h
  · try rw [hm] at h
    try dsimp only at h
    left
    rw [mkTasaInteres_eq] at h
    by_cases hc : mkCond (percentVal g.entero g.frac) (periodOf g.pCap)
        (pyLower (pyStrip strNominal)) (some (periodOf g.pNom))
    · rw [if_pos hc, pyNorm_strNominal] at h
      injection h with h2
      refine ⟨g, h2.symm, ?_⟩
      rw [pyNorm_strNominal] at hc
      rcases hc with ⟨-, -, h3 | ⟨-, -, hle⟩⟩
      · exact absurd h3.symm strEfectiva_ne_strNominal
      · exact hle
    · rw [if_neg hc] at h
      exact Except.noConfusion h

/-- Round trip for effective rates with a valid period: formatting then
re-parsing preserves all fields and moves the value at most half a decimal
step of the percentage grid. -/
theorem roundtrip_eff (prec : ℕ) (v : ℚ) (per : ℤ) (hv : 0 ≤ v)
    (hreg : posRegime prec (bankers (v * 100 * 10 ^ prec)).toNat)
    (hper : per = 1 ∨ per = 3 ∨ per = 6 ∨ per = 12) :
    ∃ out : List Char, ∃ t2 : TasaInteres,
      toText prec ⟨v, per, strEfectiva, false, none⟩ = .ok out ∧
      fromString out = .ok t2 ∧
      t2.tipo = strEfectiva ∧ t2.periodo = per ∧ t2.es_anticipada = false ∧
      t2.periodo_nominal = none ∧
      |t2.valor - v| ≤ 1 / (200 * (10 : ℚ) ^ prec) := by
  obtain ⟨c1, c2, hinv, hcode, heffp, hcf⟩ := invEffCode_cases per hper
  set M : ℕ := (bankers (v * 100 * 10 ^ prec)).toNat with hMdef
  have htext : toText prec ⟨v, per, strEfectiva, false, none⟩ =
      .ok (fmtScaledNat prec M ++ '%' :: ' ' :: [c1, c2]) := by
    unfold toText
    try dsimp only
    rw [if_pos rfl,
      fmtScaled_qRound prec (v * 100) (mul_nonneg hv (by norm_num)) hreg, hinv, hMdef]
  obtain ⟨hstrip, hnorm⟩ := normalizeText_out prec M [c1, c2] (List.cons_ne_nil _ _) hcf
  have hne : (fmtScaledNat prec M ++ '%' :: ' ' :: [c1, c2] : List Char) ≠ [] := by
    intro hh
    rw [List.append_eq_nil] at hh
    exact fmtScaledNat_ne_nil prec M hh.1
  have hempty : ¬ ((pyStrip (fmtScaledNat prec M ++ '%' :: ' ' :: [c1, c2])).isEmpty = true) := by
    rw [hstrip, List.isEmpty_iff]
    exact hne
  obtain ⟨d1, d2, hmatch, hval⟩ := matchEfectiva_fmt prec M c1 c2 hcode
  have hparse : fromString (fmtScaledNat prec M ++ '%' :: ' ' :: [c1, c2]) =
      mkTasaInteres (percentVal d1 d2) (effPeriodOf c1 c2) strEfectiva false none := by
    unfold fromString
    rw [if_neg hempty]
    try dsimp only
    rw [hnorm, matchNominal_eff_none prec M c1 c2]
    try dsimp only
    rw [hmatch]
  have hcond : mkCond (percentVal d1 d2) (effPeriodOf c1 c2)
      (pyLower (pyStrip strEfectiva)) none := by
    rw [pyNorm_strEfectiva]
    exact ⟨lt_of_lt_of_le (by norm_num) (percentVal_nonneg d1 d2),
      effPeriodOf_pos c1 c2, Or.inl rfl⟩
  refine ⟨fmtScaledNat prec M ++ '%' :: ' ' :: [c1, c2],
    ⟨percentVal d1 d2, effPeriodOf c1 c2, strEfectiva, false, none⟩,
    htext, ?_, rfl, heffp, rfl, rfl, ?_⟩
  · rw [hparse, mkTasaInteres_eq, if_pos hcond, pyNorm_strEfectiva]
  · rw [hval, hMdef]
    exact percent_roundtrip_bound prec v hv

/-- Round trip for nominal rates with valid periods: formatting then re-parsing
preserves all fields and moves the value at most half a decimal step of the
percentage grid. -/
theorem roundtrip_nom (prec : ℕ) (v : ℚ) (per pnv : ℤ) (ant : Bool) (hv : 0 ≤ v)
    (hreg : posRegime prec (bankers (v * 100 * 10 ^ prec)).toNat)
    (hper : per = 1 ∨ per = 3 ∨ per = 6 ∨ per = 12)
    (hpnv : pnv = 1 ∨ pnv = 3 ∨ pnv = 6 ∨ pnv = 12)
    (hle : per ≤ pnv) :
    ∃ out : List Char, ∃ t2 : TasaInteres,
      toText prec ⟨v, per, strNominal, ant, some pnv⟩ = .ok out ∧
      fromString out = .ok t2 ∧
      t2.tipo = strNominal ∧ t2.periodo = per ∧ t2.es_anticipada = ant ∧
      t2.periodo_nominal = some pnv ∧
      |t2.valor - v| ≤ 1 / (200 * (10 : ℚ) ^ prec) := by
  obtain ⟨cN, hcN1, hcN2, hcN3, hcN4⟩ := invPerChar_cases pnv hpnv
  obtain ⟨cC, hcC1, hcC2, hcC3, hcC4⟩ := invPerChar_cases per hper
  obtain ⟨va, hvaEq, hvaOr, hvaDec, hvaF⟩ :
      ∃ va : Char, (if ant then 'A' else 'V') = va ∧ (va = 'V' ∨ va = 'A') ∧
        decide (va = 'A') = ant ∧
        (upperChar va = va ∧ isPySpace va = false ∧ va ≠ ' ') := by
    cases ant
    · exact ⟨'V', rfl, Or.inl rfl, by decide, by decide⟩
    · exact ⟨'A', rfl, Or.inr rfl, by decide, by decide⟩
  set M : ℕ := (bankers (v * 100 * 10 ^ prec)).toNat with hMdef
  have htext : toText prec ⟨v, per, strNominal, ant, some pnv⟩ =
      .ok (fmtScaledNat prec M ++ '%' :: ' ' :: 'N' :: cN :: '/' :: cC :: va :: []) := by
    unfold toText
    try dsimp only
    rw [if_neg (show ¬ strNominal = strEfectiva from fun hh =>
      strEfectiva_ne_strNominal hh.symm)]
    rw [hcN1, hcC1]
    try dsimp only
    rw [fmtScaled_qRound prec (v * 100) (mul_nonneg hv (by norm_num)) hreg, hvaEq, hMdef]
  have hcodef : ∀ c ∈ ('N' :: cN :: '/' :: cC :: va :: [] : List Char),
      upperChar c = c ∧ isPySpace c = false ∧ c ≠ ' ' := by
    intro c hc
    simp only [List.mem_cons, List.not_mem_nil, or_false] at hc
    rcases hc with rfl | rfl | rfl | rfl | rfl
    · exact ⟨by decide, by decide, by decide⟩
    · exact hcN4
    · exact ⟨by decide, by decide, by decide⟩
    · exact hcC4
    · exact hvaF
  obtain ⟨hstrip, hnorm⟩ := normalizeText_out prec M ('N' :: cN :: '/' :: cC :: va :: [])
    (List.cons_ne_nil _ _) hcodef
  have hne : (fmtScaledNat prec M ++ '%' :: ' ' :: 'N' :: cN :: '/' :: cC :: va :: []
      : List Char) ≠ [] := by
    intro hh
    rw [List.append_eq_nil] at hh
    exact fmtScaledNat_ne_nil prec M hh.1
  have hempty : ¬ ((pyStrip (fmtScaledNat prec M ++ '%' :: ' ' :: 'N' :: cN :: '/' ::
      cC :: va :: [])).isEmpty = true) := by
    rw [hstrip, List.isEmpty_iff]
    exact hne
  obtain ⟨d1, d2, hmatch, hval⟩ := matchNominal_fmt prec M cN cC va hcN2 hcC2 hvaOr
  have hparse : fromString (fmtScaledNat prec M ++ '%' :: ' ' :: 'N' :: cN :: '/' ::
      cC :: va :: []) =
      mkTasaInteres (percentVal d1 d2) (periodOf cC) strNominal (decide (va = 'A'))
        (some (periodOf cN)) := by
    unfold fromString
    rw [if_neg hempty]
    try dsimp only
    rw [hnorm, hmatch]
  have hcond : mkCond (percentVal d1 d2) (periodOf cC) (pyLower (pyStrip strNominal))
      (some (periodOf cN)) := by
    rw [pyNorm_strNominal]
    refine ⟨lt_of_lt_of_le (by norm_num) (percentVal_nonneg d1 d2), periodOf_pos cC,
      Or.inr ⟨rfl, ?_⟩⟩
    exact ⟨periodOf_pos cN, by rw [hcN3, hcC3]; exact hle⟩
  refine ⟨fmtScaledNat prec M ++ '%' :: ' ' :: 'N' :: cN :: '/' :: cC :: va :: [],
    ⟨percentVal d1 d2, periodOf cC, strNominal, decide (va = 'A'), some (periodOf cN)⟩,
    htext, ?_, rfl, hcC3, hvaDec, ?_, ?_⟩
  · rw [hparse, mkTasaInteres_eq, if_pos hcond, pyNorm_strNominal]
  · rw [hcN3]
  · rw [hval, hMdef]
    exact percent_roundtrip_bound prec v hv

/-- C5 counterexample: the parser accepts "0.00001%MV" (value 10^-7), but
to_string at the default precision renders the percentage 10^-5 in scientific
notation as "1e-05% MV", which from_string rejects, so the round trip fails on
a text the parser accepts. -/
theorem C5_scientific_notation_breaks_roundtrip :
    fromString ('0' :: '.' :: '0' :: '0' :: '0' :: '0' :: '1' :: '%' :: 'M' :: 'V' :: []) =
      .ok ⟨1 / 10 ^ 7, 1, strEfectiva, false, none⟩ ∧
    toText 6 (⟨1 / 10 ^ 7, 1, strEfectiva, false, none⟩ : TasaInteres) =
      .ok ('1' :: 'e' :: '-' :: '0' :: '5' :: '%' :: ' ' :: 'M' :: 'V' :: []) ∧
    fromString ('1' :: 'e' :: '-' :: '0' :: '5' :: '%' :: ' ' :: 'M' :: 'V' :: []) =
      .error .valueErr := by
  refine ⟨by decide, by decide, by decide⟩

/-- C5 amended: for every text the parser accepts whose rounded percentage
round(value * 100, precision) is zero or lies in [10^-4, 10^16) — the range a
Python float renders positionally — serialising the parsed rate and re-parsing
succeeds and reproduces the kind, period, nominal period and anticipated flag
exactly, while the value moves by at most half a unit in the last displayed
percentage digit (1 / (200 * 10 ^ precision) in decimal form), i.e. within the
display rounding precision; outside that range to_string emits scientific
notation, which from_string rejects. -/
theorem C5_parse_format_roundtrip (prec : ℕ) (s : List Char) (t : TasaInteres)
    (h : fromString s = .ok t)
    (hpos : qRound prec (t.valor * 100) = 0 ∨
      (1 / 10 ^ 4 ≤ qRound prec (t.valor * 100) ∧
        qRound prec (t.valor * 100) < 10 ^ 16)) :
    ∃ out : List Char, ∃ t2 : TasaInteres,
      toText prec t = .ok out ∧
      fromString out = .ok t2 ∧
      t2.tipo = t.tipo ∧ t2.periodo = t.periodo ∧
      t2.es_anticipada = t.es_anticipada ∧ t2.periodo_nominal = t.periodo_nominal ∧
      |t2.valor - t.valor| ≤ 1 / (200 * (10 : ℚ) ^ prec) := by
  rcases fromString_ok_shape s t h with ⟨g, rfl, hle⟩ | ⟨d1, d2, c1, c2, rfl⟩
  · have hreg := (posRegime_iff prec (percentVal g.entero g.frac * 100)
      (mul_nonneg (percentVal_nonneg _ _) (by norm_num))).mpr hpos
    obtain ⟨out, t2, h1, h2, h3, h4, h5, h6, h7⟩ :=
      roundtrip_nom prec (percentVal g.entero g.frac) (periodOf g.pCap) (periodOf g.pNom)
        (decide (g.va = 'A')) (percentVal_nonneg _ _) hreg (periodOf_cases g.pCap)
        (periodOf_cases g.pNom) hle
    exact ⟨out, t2, h1, h2, h3, h4, h5, h6, h7⟩
  · have hreg := (posRegime_iff prec (percentVal d1 d2 * 100)
      (mul_nonneg (percentVal_nonneg _ _) (by norm_num))).mpr hpos
    obtain ⟨out, t2, h1, h2, h3, h4, h5, h6, h7⟩ :=
      roundtrip_eff prec (percentVal d1 d2) (effPeriodOf c1 c2) (percentVal_nonneg _ _)
        hreg (effPeriodOf_cases c1 c2)
    exact ⟨out, t2, h1, h2, h3, h4, h5, h6, h7⟩

/-- C5 witness: the round trip at the concrete parsed rate of "24% NA/MV" and
the default precision 6, whose rounded percentage 24 is in the positional
range. -/
theorem C5_parse_format_roundtrip_witness :
    fromString ('2' :: '4' :: '%' :: ' ' :: 'N' :: 'A' :: '/' :: 'M' :: 'V' :: []) =
      .ok ⟨6 / 25, 1, strNominal, false, some 12⟩ ∧
    (1 / 10 ^ 4 ≤ qRound 6 ((6 : ℚ) / 25 * 100) ∧
      qRound 6 ((6 : ℚ) / 25 * 100) < 10 ^ 16) ∧
    (∃ out : List Char, ∃ t2 : TasaInteres,
      toText 6 (⟨6 / 25, 1, strNominal, false, some 12⟩ : TasaInteres) = .ok out ∧
      fromString out = .ok t2 ∧
      t2.tipo = strNominal ∧ t2.periodo = 1 ∧
      t2.es_anticipada = false ∧ t2.periodo_nominal = some 12 ∧
      |t2.valor - 6 / 25| ≤ 1 / (200 * (10 : ℚ) ^ 6)) :=
  ⟨by decide, ⟨by decide, by decide⟩, C5_parse_format_roundtrip 6
    ('2' :: '4' :: '%' :: ' ' :: 'N' :: 'A' :: '/' :: 'M' :: 'V' :: [])
    ⟨6 / 25, 1, strNominal, false, some 12⟩ (by decide)
    (Or.inr ⟨by decide, by decide⟩)⟩


end AnaDec
